import Mathlib

/-!
Verification of the rat-wgpu terminal-cell compositor backend.

This file shallowly embeds the state and operations of the wgpu ratatui
backend (src/backend/backend.rs, src/font/fonts.rs, src/font/rasterize.rs)
and proves or refutes the frozen specification claims about it.

Modelling conventions:
* machine integers become Nat / Int with explicit wrapping (castU16, mod 256)
  where the source can wrap;
* Rust panics (out-of-bounds indexing, expect, usize underflow) become
  Option failure, so an operation has a post-state exactly when the source
  call returns;
* the external unicode-bidi engine and the external rustybuzz shaping
  engine are oracles: the per-row visual runs and the shaped glyph lists
  are parameters of the embedded flush, since their output is produced by
  foreign crates whose internals are out of scope.  Everything the backend
  itself computes from the oracle output is embedded from the source.
-/

namespace RatWgpu

/-- One Unicode scalar as the backend observes it: its code point, its
display width as reported by unicode-width, and the two character-class
facts the backend branches on (general category Format, category group
Mark). -/
structure RChar where
  code : Nat
  width : Option Nat
  isFormat : Bool
  isMark : Bool
deriving DecidableEq, Repr

/-- The style-modifier bit-set of a ratatui Cell (the bits the backend
reads). -/
structure RModifier where
  bold : Bool := false
  italic : Bool := false
  underlined : Bool := false
  crossedOut : Bool := false
  reversed : Bool := false
  hidden : Bool := false
  dim : Bool := false
  rapidBlink : Bool := false
  slowBlink : Bool := false
deriving DecidableEq, Repr

/-- A ratatui buffer cell: grapheme symbol, colors (opaque tokens), style
modifier and the wide-glyph continuation flag. -/
structure RCell where
  symbol : List RChar
  fg : Nat := 0
  bg : Nat := 0
  modifier : RModifier := {}
  skip : Bool := false
deriving DecidableEq, Repr

/-- The space character, width 1. -/
def spaceChar : RChar := { code := 32, width := some 1, isFormat := false, isMark := false }

/-- ratatui Cell::EMPTY, a single space. -/
def emptyCell : RCell := { symbol := [spaceChar] }

/-- NULL_CELL from backend/mod.rs: empty symbol with skip = true. -/
def nullCell : RCell := { symbol := [], skip := true }

/-- `u16` truncation of a Nat (Rust `as u16`). -/
def castU16 (n : Nat) : Nat := n % 65536

/-- `u16` truncation of an Int (Rust `as u16` from i32). -/
def castU16i (i : Int) : Nat := (i.emod 65536).toNat

/-- Width of the first non-Format char of a symbol, defaulting to a space
(width 1); this is the expression
`symbol().chars().filter(not Format).next().unwrap_or(' ').width().unwrap_or(1)`
used by draw_tui and flush_tui. -/
def symbolWidth (sym : List RChar) : Nat :=
  match (sym.filter (fun c => !c.isFormat)).head? with
  | none => 1
  | some c => c.width.getD 1

/-- Checked list update: Rust `l[i] = a` / `BitVec::set(i, a)`, which panic
when `i` is out of bounds. -/
def setAt? (l : List α) (i : Nat) (a : α) : Option (List α) :=
  if i < l.length then some (l.set i a) else none

/-- Checked range fill: Rust `l[s..s+n].fill(a)`, which panics when the
range exceeds the vector. -/
def fillRange? (l : List α) (s n : Nat) (a : α) : Option (List α) :=
  if s + n ≤ l.length then some (l.take s ++ List.replicate n a ++ l.drop (s + n)) else none

/-- Rust `Vec::resize(n, a)`: truncate or extend with copies of `a`. -/
def resizeList (l : List α) (n : Nat) (a : α) : List α :=
  if n ≤ l.length then l.take n else l ++ List.replicate (n - l.length) a

/-- Indices of the set bits of a bitmap, in order (bitvec `iter_ones`). -/
def onesIdx (l : List Bool) : List Nat :=
  (l.enum.filter (fun p => p.2)).map (fun p => p.1)

/-- Option-valued left fold: models a Rust `for` loop whose body can
panic. -/
def foldOptM (f : σ → α → Option σ) : σ → List α → Option σ
  | s, [] => some s
  | s, a :: l =>
    match f s a with
    | none => none
    | some s' => foldOptM f s' l

/-- Rust `a..=b` iteration as a list. -/
def rangeClosed (a b : Nat) : List Nat := List.range' a (b + 1 - a)

/- ## Font selection (src/font/fonts.rs) -/

/-- A font as the selection logic observes it: its id and which code
points its cmap maps (`face().glyph_index(ch).is_some()`). -/
structure FontRec where
  id : Nat
  maps : Nat → Bool

/-- Number of characters of the cluster the font maps: the `fold` in
`Fonts::select_font`. -/
def countMapped (f : FontRec) (cluster : List Nat) : Nat :=
  (cluster.filter f.maps).length

/-- The `last_idx` accumulator of that fold: index of the last char, and 0
for an empty cluster. -/
def lastIdx (cluster : List Nat) : Nat := cluster.length - 1

/-- The loop of `Fonts::select_font`, with accumulators `max`, `font`,
`last_resort`; the final `font.unwrap_or_else(last_resort / panic)` is the
`orElse`, with the panic for an empty font list modelled as `none`. -/
def selectLoop (cluster : List Nat) : List FontRec → Nat → Option Nat → Option Nat → Option Nat
  | [], _, font, lastResort => font.orElse (fun _ => lastResort)
  | c :: rest, mx, font, lastResort =>
    if countMapped c cluster = lastIdx cluster + 1 then
      (if mx < countMapped c cluster then some c.id else font).orElse (fun _ => lastResort)
    else
      selectLoop cluster rest
        (if mx < countMapped c cluster then countMapped c cluster else mx)
        (if mx < countMapped c cluster then some c.id else font)
        (some c.id)

/-- `Fonts::select_font`. -/
def select_font (cluster : List Nat) (fonts : List FontRec) : Option Nat :=
  selectLoop cluster fonts 0 none none

/-- The font lists of `Fonts` that drive fallback chains. -/
structure FontsModel where
  regular : List FontRec
  bold : List FontRec
  italic : List FontRec
  boldItalic : List FontRec
  fallback : List FontRec

/-- The candidate chain `Fonts::font_for_cell` assembles for a given
bold/italic modifier combination. -/
def chainFor (fs : FontsModel) (bold italic : Bool) : List FontRec :=
  if bold && italic then fs.boldItalic ++ fs.italic ++ fs.bold ++ fs.regular ++ fs.fallback
  else if bold then fs.bold ++ fs.regular ++ fs.fallback
  else if italic then fs.italic ++ fs.regular ++ fs.fallback
  else fs.regular ++ fs.fallback

/-- `Fonts::font_for_cell`: select over the modifier-matched chain using
the cell symbol's code points. -/
def font_for_cell (fs : FontsModel) (cell : RCell) : Option Nat :=
  select_font (cell.symbol.map RChar.code) (chainFor fs cell.modifier.bold cell.modifier.italic)

/-- Whether a font maps every character of the cluster. -/
def mapsAll (cluster : List Nat) (f : FontRec) : Bool :=
  cluster.all f.maps

/-- The greatest per-font match count over a chain. -/
def bestCount (cluster : List Nat) (chain : List FontRec) : Nat :=
  (chain.map (fun f => countMapped f cluster)).foldr Nat.max 0

/-- Claim-side specification of font selection, written from the spec's
words: the first font mapping every character, else the earliest font with
the greatest match count, else the last font tried. -/
def selectFontSpec (cluster : List Nat) (chain : List FontRec) : Option Nat :=
  match chain.find? (mapsAll cluster) with
  | some f => some f.id
  | none =>
    if 0 < bestCount cluster chain then
      (chain.find? (fun f => countMapped f cluster = bestCount cluster chain)).map FontRec.id
    else
      chain.getLast?.map FontRec.id

/- ## Glyph rasterization (src/font/rasterize.rs) -/

/-- The font-face capabilities the rasterizer dispatch queries, in its
priority order. -/
structure FaceModel where
  paintsColor : Bool
  hasColorRaster : Bool
  hasOutline : Bool
  hasGrayRaster : Bool
deriving DecidableEq, Repr

/-- Which of the rasterizer's strategies produced the pixels. -/
inductive RasterStrategy
  | tofu
  | colorPaint
  | colorRaster
  | outline
  | grayRaster
  | emptyBuf
deriving DecidableEq, Repr

/-- A path command recorded by the tofu-box drawing (raqote path ops);
coordinates are exact rationals standing for the f32 products of the
source. -/
inductive PathCmd
  | moveTo (x y : ℚ)
  | lineTo (x y : ℚ)
  | close
deriving DecidableEq, Repr

/-- Result of rasterize_glyph as observed by its caller: chosen strategy,
output pixel count, color tag and (for the tofu box) the stroked path and
stroke width drawn onto the all-zero backing buffer. -/
structure RasterOut where
  strategy : RasterStrategy
  bufLen : Nat
  isColor : Bool
  strokePath : List PathCmd
  strokeWidth : ℚ
deriving DecidableEq, Repr

/-- The tofu-box path of rasterize_glyph: a rectangle with corners at
0.33 and 0.67 of the cell width and height. -/
def tofuPath (w h : Nat) : List PathCmd :=
  [PathCmd.moveTo (33 / 100 * w) (33 / 100 * h),
   PathCmd.lineTo (67 / 100 * w) (33 / 100 * h),
   PathCmd.lineTo (67 / 100 * w) (67 / 100 * h),
   PathCmd.lineTo (33 / 100 * w) (67 / 100 * h),
   PathCmd.close]

/-- `rasterize_glyph` (src/font/rasterize.rs): the strategy dispatch in
source order.  Every branch of the source returns a buffer of exactly
`w * h` pixels (the supersampled branches downsample into a
`cached.width x cached.height` target before returning); what each
non-tofu branch paints is external-library output and is not modelled
beyond its strategy tag and color flag. -/
def rasterize_glyph (face : FaceModel) (glyphId : Nat) (w h : Nat) : RasterOut :=
  if glyphId = 0 then
    { strategy := RasterStrategy.tofu, bufLen := w * h, isColor := false,
      strokePath := tofuPath w h, strokeWidth := 3 / 2 }
  else if face.paintsColor then
    { strategy := RasterStrategy.colorPaint, bufLen := w * h, isColor := true,
      strokePath := [], strokeWidth := 0 }
  else if face.hasColorRaster then
    { strategy := RasterStrategy.colorRaster, bufLen := w * h, isColor := true,
      strokePath := [], strokeWidth := 0 }
  else if face.hasOutline then
    { strategy := RasterStrategy.outline, bufLen := w * h, isColor := false,
      strokePath := [], strokeWidth := 0 }
  else if face.hasGrayRaster then
    { strategy := RasterStrategy.grayRaster, bufLen := w * h, isColor := false,
      strokePath := [], strokeWidth := 0 }
  else
    { strategy := RasterStrategy.emptyBuf, bufLen := w * h, isColor := false,
      strokePath := [], strokeWidth := 0 }

/- ## Backend state (src/backend/mod.rs, src/backend/backend.rs) -/

/-- An integer-cornered pixel rectangle (`(i32, i32, u32, u32)`). -/
structure RectI where
  x : Int
  y : Int
  w : Nat
  h : Nat
deriving DecidableEq, Repr

/-- ImageInfo: one queued image placement.  The 3x2 uv transform is an
opaque token, the backend only compares it for equality. -/
structure ImageInfoM where
  imageId : Nat
  viewRect : RectI
  viewClip : RectI
  belowText : Bool
  uvTransform : Nat
deriving DecidableEq, Repr

/-- The atlas rectangle data the dirty-tracking reads back from a
rendered glyph. -/
structure CacheRectM where
  x : Nat
  y : Nat
  width : Nat
  height : Nat
  color : Bool
deriving DecidableEq, Repr

/-- RenderInfo: the per-glyph record stored in the `rendered` array (the
fields not read by any modelled operation are carried as data only). -/
structure RenderInfoM where
  cached : CacheRectM
  fg : Nat := 0
  bg : Nat := 0
  modifier : RModifier := {}
  underlinePosMin : Nat := 0
  underlinePosMax : Nat := 0
  strikeoutPosMin : Nat := 0
  strikeoutPosMax : Nat := 0
  cursorPosMin : Nat := 0
  cursorPosMax : Nat := 0
deriving DecidableEq, Repr

/-- One positioned glyph of a cell: `(basex, basey, glyph_id, RenderInfo)`. -/
structure PlacedGlyph where
  x : Int
  y : Int
  glyph : Nat
  info : RenderInfoM
deriving DecidableEq, Repr

/-- `Rendered`: the glyph list of one cell. -/
abbrev RenderedM := List PlacedGlyph

/-- The cursor shapes (src/cursor.rs). -/
inductive CursorStyleM
  | block
  | underscore
  | boldUnderscore
  | bar
  | boldBar
  | rtlBar
  | rtlBoldBar
deriving DecidableEq, Repr

/-- `CursorStyle::to_ltr` (note the source maps RtlBoldBar to itself). -/
def CursorStyleM.toLtr : CursorStyleM → CursorStyleM
  | CursorStyleM.rtlBar => CursorStyleM.bar
  | CursorStyleM.rtlBoldBar => CursorStyleM.rtlBoldBar
  | v => v

/-- `CursorStyle::to_rtl`. -/
def CursorStyleM.toRtl : CursorStyleM → CursorStyleM
  | CursorStyleM.bar => CursorStyleM.rtlBar
  | CursorStyleM.boldBar => CursorStyleM.rtlBoldBar
  | v => v

/-- TuiSurface together with the parallel `rendered` array of the backend.
Fields the claims never touch (color table, reset colors, the shared
image-frame plumbing) are omitted; the pending image placements drained by
draw are passed to draw_tui as an argument instead of through the shared
locked buffer. -/
structure Surface where
  images : List ImageInfoM
  cells : List RCell
  cellFont : List Nat
  cellRemap : List Nat
  dirtyRows : List Bool
  dirtyCells : List Bool
  dirtyImg : List ImageInfoM
  fastBlinking : List Bool
  slowBlinking : List Bool
  cursor : Nat × Nat
  cursorStyle : CursorStyleM
  cursorVisible : Bool
  cursorBlink : Nat
  cursorDivisor : Nat
  cursorShowing : Bool
  blink : Nat
  fastBlinkDivisor : Nat
  fastBlinkShowing : Bool
  slowBlinkDivisor : Nat
  slowBlinkShowing : Bool
  rendered : List RenderedM
deriving DecidableEq, Repr

/-- The backend-level data `size()` and `resize()` read: the surface
configuration in pixels, the font cell box, and the device texture limit. -/
structure Backend where
  surf : Surface
  configWidth : Nat
  configHeight : Nat
  cellWidth : Nat
  cellHeight : Nat
  maxTexDim : Nat
deriving DecidableEq, Repr

/-- `WgpuBackend::size`: the cell grid, integer division of the surface
configuration by the font cell box. -/
def sizeOf (b : Backend) : Nat × Nat :=
  (b.configWidth / b.cellWidth, b.configHeight / b.cellHeight)

/-- `CellBox::cell_pos` (src/lib.rs): pixel to cell coordinates, clamped
into the grid.  After the clamp to `[0, bound-1]` the rounding convention
of the i32 division is irrelevant for negative inputs, so Int division is
used directly. -/
def cellPos (cw chh bw bh : Nat) (x y : Int) : Nat × Nat :=
  ((max 0 (min (x / (cw : Int)) ((bw - 1 : Nat) : Int))).toNat,
   (max 0 (min (y / (chh : Int)) ((bh - 1 : Nat) : Int))).toNat)

/-- Set one dirty-cells bit (panics when out of bounds). -/
def markCellDirty (bw x y : Nat) (s : Surface) : Option Surface :=
  match setAt? s.dirtyCells (y * bw + x) true with
  | none => none
  | some dc => some { s with dirtyCells := dc }

/-- Set one dirty-rows bit (panics when out of bounds). -/
def markRowDirty (y : Nat) (s : Surface) : Option Surface :=
  match setAt? s.dirtyRows y true with
  | none => none
  | some dr => some { s with dirtyRows := dr }

/-- The nested `for y ..= / for x ..=` dirty-marking loops shared by
draw_tui (glyph footprints, image footprints): every covered cell bit and
row bit is set. -/
def markRect (bw : Nat) (p1 p2 : Nat × Nat) (s : Surface) : Option Surface :=
  foldOptM (fun s y => do
      let s ← foldOptM (fun s x => markCellDirty bw x y s) s (rangeClosed p1.1 p2.1)
      markRowDirty y s)
    s (rangeClosed p1.2 p2.2)

/- ### draw (draw_tui, src/backend/backend.rs lines 939-1108) -/

/-- Body of draw_tui's per-cell content loop. -/
def drawContentStep (bw bh cw chh : Nat) (fonts : FontsModel) (s : Surface)
    (item : Nat × Nat × RCell) : Option Surface :=
  match item with
  | (x, y, cell) =>
    match setAt? s.fastBlinking (y * bw + x) cell.modifier.rapidBlink with
    | none => none
    | some fb =>
      match setAt? s.slowBlinking (y * bw + x) cell.modifier.slowBlink with
      | none => none
      | some sb =>
        let s1 := { s with fastBlinking := fb, slowBlinking := sb }
        match s1.rendered.get? (y * bw + x) with
        | none => none
        | some glyphs =>
          match foldOptM (fun s g =>
              markRect bw
                (cellPos cw chh bw bh g.x g.y)
                (cellPos cw chh bw bh (g.x + (g.info.cached.width : Int))
                  (g.y + (g.info.cached.height : Int)))
                s)
            s1 glyphs with
          | none => none
          | some s2 =>
            match setAt? s2.cells (y * bw + x) cell with
            | none => none
            | some cs =>
              match font_for_cell fonts cell with
              | none => none
              | some fid =>
                match setAt? s2.cellFont (y * bw + x) fid with
                | none => none
                | some cf =>
                  match setAt? s2.dirtyCells (y * bw + x) true with
                  | none => none
                  | some dc =>
                    let s3 := { s2 with cells := cs, cellFont := cf, dirtyCells := dc }
                    match (if 1 < symbolWidth cell.symbol then
                        match fillRange? s3.cells (y * bw + x + 1)
                            (symbolWidth cell.symbol - 1) nullCell with
                        | none => none
                        | some cs2 =>
                          match fillRange? s3.dirtyCells (y * bw + x + 1)
                              (symbolWidth cell.symbol - 1) true with
                          | none => none
                          | some dc2 => some { s3 with cells := cs2, dirtyCells := dc2 }
                      else some s3) with
                    | none => none
                    | some s4 => markRowDirty y s4

/-- Body of draw_tui's image-diffing loop: decide whether the incoming
placement is dirty, remove the matching previous entry, and accumulate
the new image list. -/
def drawImageStep (bw bh cw chh : Nat) (st : Surface × List ImageInfoM)
    (ic : ImageInfoM) : Option (Surface × List ImageInfoM) :=
  match st with
  | (s, acc) =>
    match s.images.findIdx? (fun t => t.imageId == ic.imageId && t.viewRect == ic.viewRect) with
    | some pos =>
      match s.images.get? pos with
      | none => none
      | some test =>
        match (if test.belowText != ic.belowText || test.uvTransform != ic.uvTransform then
            some { s with dirtyImg := s.dirtyImg ++ [ic] }
          else
            foldOptM (fun s y =>
                match s.dirtyRows.get? y with
                | none => none
                | some d =>
                  if d then some { s with dirtyImg := s.dirtyImg ++ [ic] } else some s)
              s (rangeClosed (cellPos cw chh bw bh ic.viewRect.x ic.viewRect.y).2
                  (cellPos cw chh bw bh (ic.viewRect.x + (ic.viewRect.w : Int))
                    (ic.viewRect.y + (ic.viewRect.h : Int))).2)) with
        | none => none
        | some s2 => some ({ s2 with images := s2.images.eraseIdx pos }, acc ++ [ic])
    | none => some ({ s with dirtyImg := s.dirtyImg ++ [ic] }, acc ++ [ic])

/-- The closing loop of draw_tui: mark every cell covered by a removed or
dirty image. -/
def markImageStep (bw bh cw chh : Nat) (s : Surface) (ii : ImageInfoM) : Option Surface :=
  markRect bw
    (cellPos cw chh bw bh ii.viewRect.x ii.viewRect.y)
    (cellPos cw chh bw bh (ii.viewRect.x + (ii.viewRect.w : Int))
      (ii.viewRect.y + (ii.viewRect.h : Int)))
    s

/-- `draw_tui`: resize all per-cell arrays to the current grid, copy the
content cells in, and diff the pending image placements (`imagesIn` stands
for the drained image-frame buffer). -/
def drawTui (bw bh cw chh : Nat) (fonts : FontsModel)
    (content : List (Nat × Nat × RCell)) (imagesIn : List ImageInfoM)
    (s : Surface) : Option Surface :=
  let s0 := { s with
    cells := resizeList s.cells (bh * bw) emptyCell
    cellFont := resizeList s.cellFont (bh * bw) 0
    cellRemap := resizeList s.cellRemap (bh * bw) 0
    fastBlinking := resizeList s.fastBlinking (bh * bw) false
    slowBlinking := resizeList s.slowBlinking (bh * bw) false
    dirtyRows := resizeList s.dirtyRows bh true
    dirtyCells := resizeList s.dirtyCells (bh * bw) true
    rendered := resizeList s.rendered (bh * bw) [] }
  match foldOptM (drawContentStep bw bh cw chh fonts) s0 content with
  | none => none
  | some s1 =>
    match foldOptM (drawImageStep bw bh cw chh) (s1, []) imagesIn with
    | none => none
    | some (s2, imgs) =>
      match foldOptM (markImageStep bw bh cw chh) s2 (s2.images ++ s2.dirtyImg) with
      | none => none
      | some s3 => some { s3 with images := imgs }

/- ### Cursor, clear_region, resize -/

/-- `WgpuBackend::set_cursor_position`: mark the old and the new cursor
cell dirty and clamp the position into the grid.  The `width - 1` of the
source underflows (panics in debug) for an empty grid, modelled as
failure. -/
def setCursorPosition (b : Backend) (px py : Nat) : Option Backend :=
  let bw := (sizeOf b).1
  let bh := (sizeOf b).2
  if bw = 0 ∨ bh = 0 then none
  else
    match setAt? b.surf.dirtyRows b.surf.cursor.2 true with
    | none => none
    | some dr =>
      match setAt? b.surf.dirtyCells (b.surf.cursor.2 * bw + b.surf.cursor.1) true with
      | none => none
      | some dc =>
        let s1 := { b.surf with dirtyRows := dr, dirtyCells := dc }
        match setAt? s1.dirtyRows (min py (bh - 1)) true with
        | none => none
        | some dr2 =>
          match setAt? s1.dirtyCells (min py (bh - 1) * bw + min px (bw - 1)) true with
          | none => none
          | some dc2 =>
            some { b with surf := { s1 with
              cursor := (min px (bw - 1), min py (bh - 1))
              dirtyRows := dr2
              dirtyCells := dc2 } }

/-- The `ClearType::CurrentLine` arm of `WgpuBackend::clear_region`:
reset the cursor row's cells, fonts and remap, mark that row and its
cells dirty, clear its blink bits. -/
def clearRegionCurrentLine (b : Backend) : Option Backend :=
  let bw := (sizeOf b).1
  let ls := b.surf.cursor.2 * bw
  match fillRange? b.surf.cells ls bw emptyCell with
  | none => none
  | some cs =>
    match fillRange? b.surf.cellFont ls bw 0 with
    | none => none
    | some cf =>
      match fillRange? b.surf.cellRemap ls bw 0 with
      | none => none
      | some cr =>
        match setAt? b.surf.dirtyRows b.surf.cursor.2 true with
        | none => none
        | some dr =>
          match fillRange? b.surf.dirtyCells ls bw true with
          | none => none
          | some dc =>
            match fillRange? b.surf.fastBlinking ls bw false with
            | none => none
            | some fb =>
              match fillRange? b.surf.slowBlinking ls bw false with
              | none => none
              | some sb =>
                some { b with surf := { b.surf with
                  cells := cs
                  cellFont := cf
                  cellRemap := cr
                  dirtyRows := dr
                  dirtyCells := dc
                  fastBlinking := fb
                  slowBlinking := sb } }

/-- `rebuild_surface` as it acts on the tracked state: every per-cell
array, both dirty bitmaps, the image lists and the rendered array are
emptied (the GPU texture rebuild and image-frame bookkeeping have no
effect on this state). -/
def rebuildSurface (s : Surface) : Surface :=
  { s with
    images := []
    cells := []
    cellFont := []
    cellRemap := []
    fastBlinking := []
    slowBlinking := []
    dirtyRows := []
    dirtyCells := []
    dirtyImg := []
    rendered := [] }

/-- `WgpuBackend::resize`: clamp to the device texture limit, ignore
no-op or zero sizes, otherwise store the new configuration and rebuild. -/
def resizeB (b : Backend) (w h : Nat) : Backend :=
  let w' := min w b.maxTexDim
  let h' := min h b.maxTexDim
  if (w' = b.configWidth ∧ h' = b.configHeight) ∨ w' = 0 ∨ h' = 0 then b
  else { b with configWidth := w', configHeight := h', surf := rebuildSurface b.surf }

/- ### flush (flush_tui, shape, append_dirty_rows; src/backend/backend.rs) -/

/-- One visual run of the external bidi engine (`ParagraphBidiInfo` +
`visual_runs`): its direction and its range inside the row string.  The
source ranges are byte ranges; since the per-byte cell map is only ever
read at character starts, the embedding indexes characters instead. -/
structure BidiRun where
  rtl : Bool
  start : Nat
  len : Nat
deriving DecidableEq, Repr

/-- The concatenated row string paired with the cell index of each
character: the `tmp_rowbuf` / `tmp_rowbuf_to_cell` pair built from the
non-skip cells of a row. -/
def rowPairs : Nat → List RCell → List (RChar × Nat)
  | _, [] => []
  | i, c :: rest =>
    (if c.skip then [] else c.symbol.map (fun ch => (ch, i))) ++ rowPairs (i + 1) rest

/-- A narrow, displayed cell: not a wide-glyph continuation (skip), and
its grapheme is a single non-Format character of width 1.  The bidi remap
claims are stated over rows of such cells; wide glyphs change the visual
counter by their width and void the plain index formulas. -/
def simpleCell (cell : RCell) : Bool :=
  !cell.skip &&
    (match cell.symbol with
     | [c] => !c.isFormat && c.width == some 1
     | _ => false)

/-- The identity initialisation of `cell_remap` done while concatenating
the row (`cell_remap[row_offset + cell_idx] = cell_idx`). -/
def initRemapRow (off n : Nat) (s : Surface) : Option Surface :=
  foldOptM (fun s ci =>
      match setAt? s.cellRemap (off + ci) ci with
      | none => none
      | some r => some { s with cellRemap := r })
    s (List.range n)

/-- The multi-run invalidation: every cell of the row is marked dirty. -/
def markRowAllDirty (off bw : Nat) (s : Surface) : Option Surface :=
  foldOptM (fun s ci =>
      match setAt? s.dirtyCells (off + ci) true with
      | none => none
      | some d => some { s with dirtyCells := d })
    s (List.range bw)

/-- Clearing of the `Rendered` slot of every dirty cell of the row. -/
def clearRenderedRow (off bw : Nat) (s : Surface) : Option Surface :=
  foldOptM (fun s ci =>
      match s.dirtyCells.get? (off + ci) with
      | none => none
      | some d =>
        if d then
          match setAt? s.rendered (off + ci) [] with
          | none => none
          | some r => some { s with rendered := r }
        else some s)
    s (List.range bw)

/-- The net effect of the `shape` calls on the rendered array: every dirty
cell of the row receives the glyph list the external shaping engine
produces for it (`shapeOut rowIdx cellIdx`); non-dirty cells are skipped
by shape's dirty check.  The glyph pushes themselves come from rustybuzz
output and are abstracted by the oracle. -/
def applyShapeOutRow (off bw rowIdx : Nat) (shapeOut : Nat → Nat → RenderedM)
    (s : Surface) : Option Surface :=
  foldOptM (fun s ci =>
      match s.dirtyCells.get? (off + ci) with
      | none => none
      | some d =>
        if d then
          match setAt? s.rendered (off + ci) (shapeOut rowIdx ci) with
          | none => none
          | some r => some { s with rendered := r }
        else some s)
    s (List.range bw)

/-- The mutable locals of flush_tui's run walk that survive across runs. -/
structure WalkSt where
  curFont : Option Nat
  curLevel : Option Bool
  curCell : Int
deriving DecidableEq, Repr

/-- The per-character body of flush_tui's run walk: Format characters are
skipped; the visual cell counter `current_cell_idx` starts at -1, becomes
0 at the first character, and on a cell change advances by the symbol
width of the cell it is leaving; the remap entry of the character's cell
is the mirrored index for an RTL run and the counter for an LTR run, and
the cursor style is flipped when the cursor sits on the cell. -/
def advanceCell (rowCells : List RCell) (curCell : Int) (cellIdx : Nat) : Option Int :=
  if curCell = -1 then some 0
  else if curCell ≠ (cellIdx : Int) then
    if curCell < 0 then none
    else
      match rowCells.get? curCell.toNat with
      | none => none
      | some prevCell => some (curCell + (symbolWidth prevCell.symbol : Int))
  else some curCell

/-- The remap write of one walked character: mirrored index inside the
run's span for an RTL run (panicking via usize underflow when the run's
last cell precedes its first), the visual counter for an LTR run, with
the cursor style flipped when the cursor sits on the cell. -/
def remapWrite (rowIdx off : Nat) (rtl : Bool) (minCell maxCell cellIdx : Nat)
    (curCell' start : Int) (s : Surface) : Option Surface :=
  if rtl then
    if maxCell < minCell then none
    else
      let viewIdx := start + ((maxCell - minCell : Nat) : Int) - (curCell' - start)
      let s1 := if (castU16 cellIdx, castU16 rowIdx) = s.cursor then
          { s with cursorStyle := s.cursorStyle.toRtl } else s
      match setAt? s1.cellRemap (off + cellIdx) (castU16i viewIdx) with
      | none => none
      | some r => some { s1 with cellRemap := r }
  else
    let s1 := if (castU16 cellIdx, castU16 rowIdx) = s.cursor then
        { s with cursorStyle := s.cursorStyle.toLtr } else s
    match setAt? s1.cellRemap (off + cellIdx) (castU16i curCell') with
    | none => none
    | some r => some { s1 with cellRemap := r }

def walkChar (rowIdx off : Nat) (rowCells : List RCell) (rtl : Bool)
    (minCell maxCell : Nat) (acc : WalkSt × Option Int × Surface)
    (p : RChar × Nat) : Option (WalkSt × Option Int × Surface) :=
  match acc with
  | (st, startCell, s) =>
    if p.1.isFormat then some (st, startCell, s)
    else
      match s.cellFont.get? (off + p.2) with
      | none => none
      | some fontId =>
        match advanceCell rowCells st.curCell p.2 with
        | none => none
        | some curCell' =>
          match remapWrite rowIdx off rtl minCell maxCell p.2 curCell'
              (startCell.getD curCell') s with
          | none => none
          | some s2 =>
            some ({ curFont := some fontId, curLevel := some rtl, curCell := curCell' },
              some (startCell.getD curCell'), s2)

/-- One visual run of flush_tui's run walk: slice the row pairs, read the
first and last cell index of the run (a panic for an empty run), and walk
the characters.  The per-run `start_cell_idx` starts as None. -/
def walkRun (rowIdx off : Nat) (rowCells : List RCell) (pairs : List (RChar × Nat))
    (acc : WalkSt × Surface) (run : BidiRun) : Option (WalkSt × Surface) :=
  if run.start + run.len ≤ pairs.length then
    match ((pairs.drop run.start).take run.len).head? with
    | none => none
    | some fst =>
      match ((pairs.drop run.start).take run.len).getLast? with
      | none => none
      | some lst =>
        match foldOptM (walkChar rowIdx off rowCells run.rtl fst.2 lst.2)
            (acc.1, none, acc.2) ((pairs.drop run.start).take run.len) with
        | none => none
        | some (st', _, s') => some (st', s')
  else none

/-- Per-row processing of flush_tui for one dirty row: rebuild the row
string and the identity remap, obtain the visual runs from the bidi
engine (`oracle`), mark the whole row dirty when there is more than one
run, clear the rendered slots of dirty cells, walk the runs updating
`cell_remap` and the cursor style, and store the shaped glyph output for
dirty cells. -/
def flushRow (bw rowIdx : Nat) (oracle : List (RChar × Nat) → List BidiRun)
    (shapeOut : Nat → Nat → RenderedM) (rowCells : List RCell)
    (s : Surface) : Option Surface :=
  match initRemapRow (rowIdx * bw) rowCells.length s with
  | none => none
  | some s1 =>
    match (if 1 < (oracle (rowPairs 0 rowCells)).length then
        markRowAllDirty (rowIdx * bw) bw s1
      else some s1) with
    | none => none
    | some s2 =>
      match clearRenderedRow (rowIdx * bw) bw s2 with
      | none => none
      | some s3 =>
        match foldOptM (walkRun rowIdx (rowIdx * bw) rowCells (rowPairs 0 rowCells))
            ({ curFont := none, curLevel := none, curCell := -1 }, s3)
            (oracle (rowPairs 0 rowCells)) with
        | none => none
        | some (_, s4) => applyShapeOutRow (rowIdx * bw) bw rowIdx shapeOut s4

/-- `chunksOf` with an explicit fuel (the list length suffices whenever
the chunk width is positive, which flush_tui guarantees before calling
`chunks`). -/
def chunksGo (w : Nat) : Nat → List α → List (List α)
  | 0, _ => []
  | _, [] => []
  | fuel + 1, l => l.take w :: chunksGo w fuel (l.drop w)

/-- Rust `slice::chunks(w)`. -/
def chunksOf (w : Nat) (l : List α) : List (List α) := chunksGo w l.length l

/-- `flush_tui`: show the cursor and reset the cursor-blink counter, then
process every dirty row. -/
def flushTui (bw bh : Nat) (oracle : List (RChar × Nat) → List BidiRun)
    (shapeOut : Nat → Nat → RenderedM) (s : Surface) : Option Surface :=
  let s0 := { s with cursorShowing := true, cursorBlink := 0 }
  if bw = 0 ∨ bh = 0 then some s0
  else
    match foldOptM (fun (acc : Nat × Surface) rowCells =>
        match acc.2.dirtyRows.get? acc.1 with
        | none => none
        | some d =>
          if d then
            match flushRow bw acc.1 oracle shapeOut rowCells acc.2 with
            | none => none
            | some s' => some (acc.1 + 1, s')
          else some (acc.1 + 1, acc.2))
      (0, s0) (chunksOf bw s0.cells) with
    | none => none
    | some (_, s2) => some s2

/-- `append_dirty_rows`: when the post-processor needs an update, a dirty
row exists or a dirty image is queued, emit the rendered glyphs of every
dirty cell plus the dirty images and clear both dirty bitmaps (in place,
lengths preserved) and the dirty-image list; otherwise do nothing.  The
emission is returned as the list of (cell index, glyph list) pairs and
the emitted image list. -/
def appendDirtyRows (needsUpdate : Bool) (s : Surface) :
    Option (Surface × List (Nat × RenderedM) × List ImageInfoM) :=
  if needsUpdate || s.dirtyRows.any id || !s.dirtyImg.isEmpty then
    match foldOptM (fun acc i =>
        match s.rendered.get? i with
        | none => none
        | some r => some (acc ++ [(i, r)]))
      ([] : List (Nat × RenderedM)) (onesIdx s.dirtyCells) with
    | none => none
    | some emits =>
      some ({ s with
        dirtyRows := s.dirtyRows.map (fun _ => false)
        dirtyCells := s.dirtyCells.map (fun _ => false)
        dirtyImg := [] }, emits, s.dirtyImg)
  else some (s, [], [])

/-- `WgpuBackend::flush` as it acts on the tracked state: flush_tui then
append_dirty_rows.  The subsequent `render` call and `drop_images` touch
only GPU objects and the image-handle tables, not any field of this
state. -/
def flushModel (bw bh : Nat) (needsUpdate : Bool)
    (oracle : List (RChar × Nat) → List BidiRun)
    (shapeOut : Nat → Nat → RenderedM) (s : Surface) : Option Surface :=
  match flushTui bw bh oracle shapeOut s with
  | none => none
  | some s1 =>
    match appendDirtyRows needsUpdate s1 with
    | none => none
    | some (s2, _, _) => some s2

/- ### blink (flush_blink, src/backend/backend.rs lines 1537-1625) -/

/-- The cell indexes flush_blink collects: the set bits of both blink
bitmaps when text blinking is requested (Blinking::TEXT = 2), plus the
cursor cell when the cursor is visible and cursor blinking is requested
(Blinking::CURSOR = 1). -/
def blinkCells (blinking bw : Nat) (s : Surface) : List Nat :=
  (if blinking &&& 2 ≠ 0 then onesIdx s.fastBlinking ++ onesIdx s.slowBlinking else [])
    ++ (if s.cursorVisible ∧ blinking &&& 1 ≠ 0 then [s.cursor.2 * bw + s.cursor.1] else [])

/-- `flush_blink`: advance the wrapping blink counters and toggle the
showing flags at their divisors, emit the cached glyphs of every blink
cell, then walk all images (current and dirty), emitting a clipped image
quad for each image cell that is also a blink cell and marking every row
an image covers as dirty.  Returns the post state, the emitted
(cell, glyphs) pairs and the emitted image quads. -/
def blinkCounters (s : Surface) : Surface :=
  let s1 := { s with
    blink := (s.blink + 1) % 256
    fastBlinkShowing :=
      if s.fastBlinkDivisor ≠ 0 ∧ (s.blink + 1) % 256 % s.fastBlinkDivisor = 0 then
        !s.fastBlinkShowing else s.fastBlinkShowing
    slowBlinkShowing :=
      if s.slowBlinkDivisor ≠ 0 ∧ (s.blink + 1) % 256 % s.slowBlinkDivisor = 0 then
        !s.slowBlinkShowing else s.slowBlinkShowing }
  { s1 with
    cursorBlink := (s1.cursorBlink + 1) % 256
    cursorShowing :=
      if s1.cursorDivisor ≠ 0 ∧ (s1.cursorBlink + 1) % 256 % s1.cursorDivisor = 0 then
        !s1.cursorShowing else s1.cursorShowing }

/-- The image walk at the end of flush_blink: for every current or dirty
image, emit a cell-clipped quad for each covered cell that is also a
blink cell, and mark every covered row dirty. -/
def blinkImageStep (bw bh cw chh : Nat) (cellIndexes : List Nat)
    (acc : Surface × List ImageInfoM) (ii : ImageInfoM) :
    Option (Surface × List ImageInfoM) :=
  foldOptM (fun (acc : Surface × List ImageInfoM) y =>
      match setAt? acc.1.dirtyRows y true with
      | none => none
      | some dr =>
        some ({ acc.1 with dirtyRows := dr },
          (rangeClosed (cellPos cw chh bw bh ii.viewRect.x ii.viewRect.y).1
              (cellPos cw chh bw bh (ii.viewRect.x + (ii.viewRect.w : Int))
                (ii.viewRect.y + (ii.viewRect.h : Int))).1).foldl (fun em x =>
            if (y * bw + x) ∈ cellIndexes then
              em ++ [{ ii with viewClip :=
                { x := (x : Int) * cw, y := (y : Int) * chh, w := cw, h := chh } }]
            else em) acc.2))
    acc (rangeClosed (cellPos cw chh bw bh ii.viewRect.x ii.viewRect.y).2
      (cellPos cw chh bw bh (ii.viewRect.x + (ii.viewRect.w : Int))
        (ii.viewRect.y + (ii.viewRect.h : Int))).2)

def flushBlink (blinking bw bh cw chh : Nat) (s : Surface) :
    Option (Surface × List (Nat × RenderedM) × List ImageInfoM) :=
  let s1 := blinkCounters s
  match foldOptM (blinkImageStep bw bh cw chh (blinkCells blinking bw s1))
      (s1, []) (s1.images ++ s1.dirtyImg) with
  | none => none
  | some (s2, imgEmit) =>
    some (s2,
      (blinkCells blinking bw s1).filterMap
        (fun i => (s1.rendered.get? i).map (fun r => (i, r))),
      imgEmit)

/-- The fields of the surface state that flush_tui's row processing never
writes (everything except cell_remap, dirty_cells, rendered and the
cursor style). -/
def coreFrame (s t : Surface) : Prop :=
  t.images = s.images ∧ t.cells = s.cells ∧ t.cellFont = s.cellFont ∧
  t.dirtyRows = s.dirtyRows ∧ t.dirtyImg = s.dirtyImg ∧
  t.fastBlinking = s.fastBlinking ∧ t.slowBlinking = s.slowBlinking ∧
  t.cursor = s.cursor ∧ t.cursorVisible = s.cursorVisible ∧
  t.cursorBlink = s.cursorBlink ∧ t.cursorDivisor = s.cursorDivisor ∧
  t.cursorShowing = s.cursorShowing ∧ t.blink = s.blink ∧
  t.fastBlinkDivisor = s.fastBlinkDivisor ∧ t.fastBlinkShowing = s.fastBlinkShowing ∧
  t.slowBlinkDivisor = s.slowBlinkDivisor ∧ t.slowBlinkShowing = s.slowBlinkShowing

/-- What each phase of draw_tui after the initial array re-sizing
preserves: the lengths of all per-cell arrays, the remap array itself
(draw never writes it), and every already-set dirty bit (draw only sets
dirty bits, never clears them). -/
def stepOk (t u : Surface) : Prop :=
  u.cells.length = t.cells.length ∧
  u.cellFont.length = t.cellFont.length ∧
  u.cellRemap = t.cellRemap ∧
  u.fastBlinking.length = t.fastBlinking.length ∧
  u.slowBlinking.length = t.slowBlinking.length ∧
  u.dirtyRows.length = t.dirtyRows.length ∧
  u.dirtyCells.length = t.dirtyCells.length ∧
  (∀ i, t.dirtyCells.get? i = some true → u.dirtyCells.get? i = some true) ∧
  (∀ r, t.dirtyRows.get? r = some true → u.dirtyRows.get? r = some true)

/- ## Concrete fixtures used by witnesses and counterexamples -/

/-- A width-1 letter (e.g. a Hebrew letter when used in RTL rows). -/
def chA : RChar := { code := 1490, width := some 1, isFormat := false, isMark := false }

/-- Another width-1 letter. -/
def chB : RChar := { code := 1491, width := some 1, isFormat := false, isMark := false }

/-- A cell holding a single character. -/
def cellOf (c : RChar) : RCell := { symbol := [c] }

/-- Bidi oracle answering a single left-to-right run over the whole row. -/
def orcSingleLtr : List (RChar × Nat) → List BidiRun :=
  fun ps => [{ rtl := false, start := 0, len := ps.length }]

/-- Bidi oracle answering a single right-to-left run over the whole row. -/
def orcSingleRtl : List (RChar × Nat) → List BidiRun :=
  fun ps => [{ rtl := true, start := 0, len := ps.length }]

/-- Bidi oracle answering two runs (mixed-direction row): an LTR run over
the first character and an RTL run over the rest. -/
def orcTwoRuns : List (RChar × Nat) → List BidiRun :=
  fun ps => [{ rtl := false, start := 0, len := 1 },
    { rtl := true, start := 1, len := ps.length - 1 }]

/-- Shaping oracle producing no glyphs. -/
def shp0 : Nat → Nat → RenderedM := fun _ _ => []

/-- A 1x1 surface with a stale dirty-cells bit but no dirty row, as left
behind by `clear()` (which empties dirty_rows but not dirty_cells)
followed by re-sizing. -/
def sC1 : Surface := {
  images := []
  cells := [emptyCell]
  cellFont := [0]
  cellRemap := [0]
  dirtyRows := [false]
  dirtyCells := [true]
  dirtyImg := []
  fastBlinking := [false]
  slowBlinking := [false]
  cursor := (0, 0)
  cursorStyle := CursorStyleM.bar
  cursorVisible := true
  cursorBlink := 5
  cursorDivisor := 2
  cursorShowing := false
  blink := 0
  fastBlinkDivisor := 2
  fastBlinkShowing := true
  slowBlinkDivisor := 4
  slowBlinkShowing := true
  rendered := [[]] }

/-- A two-cell row of width-1 RTL letters (for the bidi remap claims). -/
def rowRtl2 : List RCell := [cellOf chA, cellOf chB]

/-- A clean 1x2 surface for the bidi remap claims (cursor parked outside
the row). -/
def sRow2 : Surface := { sC1 with
  cells := rowRtl2
  cellFont := [0, 0]
  cellRemap := [9, 9]
  dirtyRows := [true]
  dirtyCells := [false, false]
  fastBlinking := [false, false]
  slowBlinking := [false, false]
  cursor := (99, 99)
  rendered := [[], []] }

/-- A 1x1 image placement covering the single cell of a 1x1 grid. -/
def img0 : ImageInfoM := {
  imageId := 0
  viewRect := { x := 0, y := 0, w := 1, h := 1 }
  viewClip := { x := 0, y := 0, w := 1, h := 1 }
  belowText := true
  uvTransform := 0 }

/-- A clean 1x1 surface carrying one overlay image (for the blink claim). -/
def sC3 : Surface := { sC1 with images := [img0], dirtyCells := [false] }

/-- A 2x1 backend with 1x1 pixel cells (for the cursor claim). -/
def bC9 : Backend := {
  surf := { sC1 with
    dirtyRows := [false]
    dirtyCells := [false, false]
    cells := [emptyCell, emptyCell]
    cellFont := [0, 0]
    cellRemap := [0, 1]
    fastBlinking := [false, false]
    slowBlinking := [false, false]
    rendered := [[], []] }
  configWidth := 2
  configHeight := 1
  cellWidth := 1
  cellHeight := 1
  maxTexDim := 4096 }

/-- A 1x1 backend (for the resize claim). -/
def bC4 : Backend := {
  surf := sC1
  configWidth := 1
  configHeight := 1
  cellWidth := 1
  cellHeight := 1
  maxTexDim := 100 }

/-- A 2x2 backend with the cursor on row 1 (for the clear-region claim). -/
def bC6 : Backend := {
  surf := { sC1 with
    cells := [cellOf chA, cellOf chB, cellOf chA, cellOf chB]
    cellFont := [1, 2, 3, 4]
    cellRemap := [1, 1, 1, 1]
    dirtyRows := [false, false]
    dirtyCells := [false, false, false, false]
    fastBlinking := [true, true, true, true]
    slowBlinking := [true, true, true, true]
    cursor := ((0 : Nat), (1 : Nat))
    rendered := [[], [], [], []] }
  configWidth := 2
  configHeight := 2
  cellWidth := 1
  cellHeight := 1
  maxTexDim := 100 }

/-- A regular font mapping only code points below 5. -/
def fontA : FontRec := { id := 10, maps := fun c => c < 5 }

/-- A fallback font mapping code points below 100. -/
def fontB : FontRec := { id := 11, maps := fun c => c < 100 }

/-- A font set with one regular and one fallback font. -/
def fonts0 : FontsModel :=
  { regular := [fontA], bold := [], italic := [], boldItalic := [], fallback := [fontB] }

/-- A two-character cell only the fallback font maps completely. -/
def cellC7 : RCell :=
  { symbol := [{ code := 7, width := some 1, isFormat := false, isMark := false },
    { code := 3, width := some 1, isFormat := false, isMark := false }] }

/- ## Generic lemmas about the embedding combinators -/

theorem setAt?_eq_some {l l' : List α} {i : Nat} {a : α}
    (h : setAt? l i a = some l') : l' = l.set i a ∧ i < l.length := by
  unfold setAt? at h
  split at h
  · exact ⟨by injection h with h; exact h.symm, by assumption⟩
  · exact absurd h (by simp)

theorem setAt?_length {l l' : List α} {i : Nat} {a : α}
    (h : setAt? l i a = some l') : l'.length = l.length := by
  obtain ⟨rfl, _⟩ := setAt?_eq_some h
  simp

theorem setAt?_get? {l l' : List α} {i : Nat} {a : α}
    (h : setAt? l i a = some l') (j : Nat) :
    l'.get? j = if i = j then some a else l.get? j := by
  obtain ⟨rfl, hi⟩ := setAt?_eq_some h
  by_cases hij : i = j
  · subst hij
    simp only [if_pos rfl, List.get?_eq_getElem?]
    exact List.getElem?_set_eq_of_lt a hi
  · simp [hij, List.get?_set_ne a l hij]

theorem fillRange?_eq_some {l l' : List α} {s n : Nat} {a : α}
    (h : fillRange? l s n a = some l') :
    l' = l.take s ++ List.replicate n a ++ l.drop (s + n) ∧ s + n ≤ l.length := by
  unfold fillRange? at h
  split at h
  · exact ⟨by injection h with h; exact h.symm, by assumption⟩
  · exact absurd h (by simp)

theorem fillRange?_length {l l' : List α} {s n : Nat} {a : α}
    (h : fillRange? l s n a = some l') : l'.length = l.length := by
  obtain ⟨rfl, hle⟩ := fillRange?_eq_some h
  simp
  omega

theorem fillRange?_get? {l l' : List α} {s n : Nat} {a : α}
    (h : fillRange? l s n a = some l') (j : Nat) :
    l'.get? j = if s ≤ j ∧ j < s + n then some a else l.get? j := by
  obtain ⟨rfl, hle⟩ := fillRange?_eq_some h
  have hts : (l.take s).length = s := by simp; omega
  rw [List.get?_eq_getElem?]
  by_cases h1 : j < s
  · rw [List.getElem?_append_left (by simp [hts]; omega),
      List.getElem?_append_left (by simp [hts]; omega)]
    rw [List.getElem?_take_of_lt h1, if_neg (by omega), List.get?_eq_getElem?]
  · by_cases h2 : j < s + n
    · rw [List.getElem?_append_left (by simp [hts]; omega),
        List.getElem?_append_right (by simp [hts]; omega), hts]
      rw [List.getElem?_replicate, if_pos (by omega), if_pos (by omega)]
    · rw [List.getElem?_append_right (by simp [hts]; omega)]
      simp only [List.length_append, hts, List.length_replicate]
      rw [List.getElem?_drop]
      rw [if_neg (by omega), List.get?_eq_getElem?]
      congr 1
      omega

theorem length_resizeList (l : List α) (n : Nat) (a : α) :
    (resizeList l n a).length = n := by
  unfold resizeList
  split
  · simp
    omega
  · simp
    omega

theorem resizeList_get?_new (l : List α) (n : Nat) (a : α) (i : Nat)
    (h1 : l.length ≤ i) (h2 : i < n) : (resizeList l n a).get? i = some a := by
  unfold resizeList
  split
  · omega
  · rw [List.get?_eq_getElem?, List.getElem?_append_right h1, List.getElem?_replicate,
      if_pos (by omega)]

theorem foldOptM_inv {σ α : Type _} {P : σ → Prop} {f : σ → α → Option σ}
    (hstep : ∀ s a s', f s a = some s' → P s → P s') :
    ∀ l s s', foldOptM f s l = some s' → P s → P s'
  | [], s, s', h, hp => by
    simp only [foldOptM] at h
    injection h with h
    exact h ▸ hp
  | a :: l, s, s', h, hp => by
    simp only [foldOptM] at h
    cases hf : f s a with
    | none => rw [hf] at h; exact absurd h (by simp)
    | some s1 =>
      rw [hf] at h
      exact foldOptM_inv hstep l s1 s' h (hstep s a s1 hf hp)

/- ## Claim C8: the notdef tofu box -/

/-- C8: for glyph id 0, rasterize_glyph returns a buffer of exactly the
requested width times height, tagged non-color, whose only drawn content
is a stroked rectangle with corners at 33 percent and 67 percent of the
cell width and height, chosen by the tofu strategy before the
color-layer, embedded-raster or vector-outline strategies are consulted. -/
theorem c8_notdef_tofu (face : FaceModel) (w h : Nat) :
    rasterize_glyph face 0 w h =
      { strategy := RasterStrategy.tofu
        bufLen := w * h
        isColor := false
        strokePath := [PathCmd.moveTo (33 / 100 * w) (33 / 100 * h),
          PathCmd.lineTo (67 / 100 * w) (33 / 100 * h),
          PathCmd.lineTo (67 / 100 * w) (67 / 100 * h),
          PathCmd.lineTo (33 / 100 * w) (67 / 100 * h),
          PathCmd.close]
        strokeWidth := 3 / 2 } := by
  rfl

theorem natMax_choice (a b : Nat) : Nat.max a b = a ∨ Nat.max a b = b := by
  rcases Nat.le_total a b with h | h
  · exact Or.inr (Nat.max_eq_right h)
  · exact Or.inl (Nat.max_eq_left h)

theorem coreFrame_refl (s : Surface) : coreFrame s s := by
  unfold coreFrame
  exact ⟨rfl, rfl, rfl, rfl, rfl, rfl, rfl, rfl, rfl, rfl, rfl, rfl, rfl, rfl, rfl, rfl, rfl⟩

theorem coreFrame_trans {s t u : Surface} (h1 : coreFrame s t) (h2 : coreFrame t u) :
    coreFrame s u := by
  unfold coreFrame at *
  obtain ⟨a1, a2, a3, a4, a5, a6, a7, a8, a9, a10, a11, a12, a13, a14, a15, a16, a17⟩ := h1
  obtain ⟨b1, b2, b3, b4, b5, b6, b7, b8, b9, b10, b11, b12, b13, b14, b15, b16, b17⟩ := h2
  exact ⟨b1.trans a1, b2.trans a2, b3.trans a3, b4.trans a4, b5.trans a5, b6.trans a6,
    b7.trans a7, b8.trans a8, b9.trans a9, b10.trans a10, b11.trans a11, b12.trans a12,
    b13.trans a13, b14.trans a14, b15.trans a15, b16.trans a16, b17.trans a17⟩

/- ## Claim C7: font selection -/

theorem lastIdx_add_one {cluster : List Nat} (hcl : cluster ≠ []) :
    lastIdx cluster + 1 = cluster.length := by
  unfold lastIdx
  have : 0 < cluster.length := List.length_pos.mpr hcl
  omega

theorem countMapped_le (f : FontRec) (cluster : List Nat) :
    countMapped f cluster ≤ cluster.length :=
  List.length_filter_le f.maps cluster

theorem mapsAll_iff {f : FontRec} {cluster : List Nat} :
    mapsAll cluster f = true ↔ countMapped f cluster = cluster.length := by
  unfold mapsAll countMapped
  rw [List.all_eq_true, List.filter_length_eq_length]

theorem count_lt_of_not_mapsAll {f : FontRec} {cluster : List Nat}
    (h : mapsAll cluster f = false) : countMapped f cluster < cluster.length := by
  have hle := countMapped_le f cluster
  have hne : countMapped f cluster ≠ cluster.length := by
    intro he
    rw [← mapsAll_iff] at he
    rw [h] at he
    exact Bool.false_ne_true he
  omega

theorem bestCount_cons (cluster : List Nat) (c : FontRec) (rest : List FontRec) :
    bestCount cluster (c :: rest) =
      Nat.max (countMapped c cluster) (bestCount cluster rest) := rfl

theorem le_bestCount {cluster : List Nat} :
    ∀ {chain : List FontRec} {f : FontRec}, f ∈ chain →
      countMapped f cluster ≤ bestCount cluster chain := by
  intro chain
  induction chain with
  | nil => intro f hf; exact absurd hf (List.not_mem_nil f)
  | cons c rest ih =>
    intro f hf
    rw [bestCount_cons]
    rcases List.mem_cons.mp hf with h | h
    · subst h; exact Nat.le_max_left _ _
    · exact Nat.le_trans (ih h) (Nat.le_max_right _ _)

theorem bestCount_attained {cluster : List Nat} :
    ∀ {chain : List FontRec}, 0 < bestCount cluster chain →
      ∃ f ∈ chain, countMapped f cluster = bestCount cluster chain := by
  intro chain
  induction chain with
  | nil => intro h; simp [bestCount] at h
  | cons c rest ih =>
    intro h
    have h1 : bestCount cluster (c :: rest) =
        Nat.max (countMapped c cluster) (bestCount cluster rest) := rfl
    by_cases hm : countMapped c cluster = bestCount cluster (c :: rest)
    · exact ⟨c, List.mem_cons_self c rest, hm⟩
    · have hb : bestCount cluster (c :: rest) = bestCount cluster rest := by
        rcases natMax_choice (countMapped c cluster) (bestCount cluster rest) with hx | hx <;>
          omega
      have hr : 0 < bestCount cluster rest := by omega
      obtain ⟨f, hf, hc⟩ := ih hr
      exact ⟨f, List.mem_cons_of_mem c hf, by omega⟩

theorem selectLoop_full {cluster : List Nat} (hcl : cluster ≠ []) :
    ∀ (chain : List FontRec) (mx : Nat) (font lastResort : Option Nat) (f : FontRec),
      mx < cluster.length →
      chain.find? (mapsAll cluster) = some f →
      selectLoop cluster chain mx font lastResort = some f.id := by
  intro chain
  induction chain with
  | nil => intro mx font lr f _ hf; simp at hf
  | cons c rest ih =>
    intro mx font lr f hmx hf
    by_cases hc : mapsAll cluster c = true
    · rw [List.find?_cons_of_pos _ hc] at hf
      injection hf with hf
      have hcount : countMapped c cluster = cluster.length := mapsAll_iff.mp hc
      have hbreak : countMapped c cluster = lastIdx cluster + 1 := by
        rw [hcount, lastIdx_add_one hcl]
      simp only [selectLoop, if_pos hbreak]
      rw [if_pos (by omega), hf]
      rfl
    · rw [List.find?_cons_of_neg _ hc] at hf
      have hcf : mapsAll cluster c = false := Bool.eq_false_iff.mpr hc
      have hlt : countMapped c cluster < cluster.length := count_lt_of_not_mapsAll hcf
      have hnb : countMapped c cluster ≠ lastIdx cluster + 1 := by
        rw [lastIdx_add_one hcl]
        omega
      simp only [selectLoop, if_neg hnb]
      apply ih _ _ _ f _ hf
      split <;> omega

theorem selectLoop_stable {cluster : List Nat} (hcl : cluster ≠ []) :
    ∀ (chain : List FontRec) (mx v : Nat) (lastResort : Option Nat),
      (∀ f ∈ chain, mapsAll cluster f = false) →
      (∀ f ∈ chain, countMapped f cluster ≤ mx) →
      selectLoop cluster chain mx (some v) lastResort = some v := by
  intro chain
  induction chain with
  | nil => intro mx v lr _ _; rfl
  | cons c rest ih =>
    intro mx v lr hnf hle
    have hcf : mapsAll cluster c = false := hnf c (List.mem_cons_self c rest)
    have hnb : countMapped c cluster ≠ lastIdx cluster + 1 := by
      have := count_lt_of_not_mapsAll hcf
      rw [lastIdx_add_one hcl]
      omega
    have hcle : countMapped c cluster ≤ mx := hle c (List.mem_cons_self c rest)
    simp only [selectLoop, if_neg hnb, if_neg (by omega : ¬ mx < countMapped c cluster)]
    exact ih mx v _ (fun f hf => hnf f (List.mem_cons_of_mem c hf))
      (fun f hf => hle f (List.mem_cons_of_mem c hf))

theorem selectLoop_argmax {cluster : List Nat} (hcl : cluster ≠ []) :
    ∀ (chain : List FontRec) (mx : Nat) (font lastResort : Option Nat),
      (∀ f ∈ chain, mapsAll cluster f = false) →
      mx < bestCount cluster chain →
      ∃ g, chain.find? (fun f => countMapped f cluster = bestCount cluster chain) = some g ∧
        selectLoop cluster chain mx font lastResort = some g.id := by
  intro chain
  induction chain with
  | nil => intro mx font lr _ h; simp [bestCount] at h
  | cons c rest ih =>
    intro mx font lr hnf hmx
    have hcf : mapsAll cluster c = false := hnf c (List.mem_cons_self c rest)
    have hnb : countMapped c cluster ≠ lastIdx cluster + 1 := by
      have := count_lt_of_not_mapsAll hcf
      rw [lastIdx_add_one hcl]
      omega
    by_cases hcb : countMapped c cluster = bestCount cluster (c :: rest)
    · refine ⟨c, ?_, ?_⟩
      · rw [List.find?_cons_of_pos]
        simp [hcb]
      · have hmxc : mx < countMapped c cluster := by rw [hcb]; exact hmx
        simp only [selectLoop, if_neg hnb, if_pos hmxc]
        apply selectLoop_stable hcl
        · exact fun f hf => hnf f (List.mem_cons_of_mem c hf)
        · intro f hf
          calc countMapped f cluster ≤ bestCount cluster rest := le_bestCount hf
            _ ≤ bestCount cluster (c :: rest) := by rw [bestCount_cons]; exact Nat.le_max_right _ _
            _ = countMapped c cluster := hcb.symm
    · have h1 : bestCount cluster (c :: rest) =
          Nat.max (countMapped c cluster) (bestCount cluster rest) := rfl
      have hrest : bestCount cluster (c :: rest) = bestCount cluster rest := by
        rcases natMax_choice (countMapped c cluster) (bestCount cluster rest) with hx | hx <;>
          omega
      have hclt : countMapped c cluster < bestCount cluster (c :: rest) := by
        have : countMapped c cluster ≤ bestCount cluster (c :: rest) :=
          le_bestCount (List.mem_cons_self c rest)
        omega
      have hmx' : (if mx < countMapped c cluster then countMapped c cluster else mx) <
          bestCount cluster rest := by
        rw [← hrest]
        split <;> omega
      obtain ⟨g, hg1, hg2⟩ := ih (if mx < countMapped c cluster then countMapped c cluster else mx)
        (if mx < countMapped c cluster then some c.id else font) (some c.id)
        (fun f hf => hnf f (List.mem_cons_of_mem c hf)) hmx'
      refine ⟨g, ?_, ?_⟩
      · rw [List.find?_cons_of_neg]
        · rw [← hrest] at hg1
          exact hg1
        · simp [hcb]
      · simp only [selectLoop, if_neg hnb]
        exact hg2

theorem selectLoop_allzero {cluster : List Nat} (hcl : cluster ≠ []) :
    ∀ (chain : List FontRec), chain ≠ [] → ∀ (lastResort : Option Nat),
      (∀ f ∈ chain, countMapped f cluster = 0) →
      ∃ g, chain.getLast? = some g ∧
        selectLoop cluster chain 0 none lastResort = some g.id := by
  intro chain
  induction chain with
  | nil => intro hne; exact absurd rfl hne
  | cons c rest ih =>
    intro _ lr hz
    have hcz : countMapped c cluster = 0 := hz c (List.mem_cons_self c rest)
    have hnb : countMapped c cluster ≠ lastIdx cluster + 1 := by
      rw [lastIdx_add_one hcl, hcz]
      have : 0 < cluster.length := List.length_pos.mpr hcl
      omega
    simp only [selectLoop, if_neg hnb, if_neg (by omega : ¬ (0:Nat) < countMapped c cluster)]
    cases rest with
    | nil => exact ⟨c, rfl, rfl⟩
    | cons d rest' =>
      obtain ⟨g, hg1, hg2⟩ := ih (by simp) (some c.id)
        (fun f hf => hz f (List.mem_cons_of_mem c hf))
      exact ⟨g, by rw [List.getLast?_cons_cons]; exact hg1, hg2⟩

theorem select_font_eq_spec (cluster : List Nat) (chain : List FontRec)
    (hcl : cluster ≠ []) :
    select_font cluster chain = selectFontSpec cluster chain := by
  have hlen : 0 < cluster.length := List.length_pos.mpr hcl
  unfold select_font selectFontSpec
  cases hfind : chain.find? (mapsAll cluster) with
  | some f => exact selectLoop_full hcl chain 0 none none f hlen hfind
  | none =>
    have hnf : ∀ f ∈ chain, mapsAll cluster f = false := by
      intro f hf
      exact Bool.eq_false_iff.mpr (List.find?_eq_none.mp hfind f hf)
    by_cases hbest : 0 < bestCount cluster chain
    · rw [if_pos hbest]
      obtain ⟨g, hg1, hg2⟩ := selectLoop_argmax hcl chain 0 none none hnf hbest
      rw [hg1, hg2]
      rfl
    · rw [if_neg hbest]
      have hz : ∀ f ∈ chain, countMapped f cluster = 0 := by
        intro f hf
        have hle : countMapped f cluster ≤ bestCount cluster chain := le_bestCount hf
        omega
      cases chain with
      | nil => rfl
      | cons c rest =>
        obtain ⟨g, hg1, hg2⟩ := selectLoop_allzero hcl (c :: rest) (by simp) none hz
        rw [hg2, hg1]
        rfl

theorem selectFontSpec_isSome (cluster : List Nat) (chain : List FontRec)
    (hch : chain ≠ []) : (selectFontSpec cluster chain).isSome := by
  unfold selectFontSpec
  cases hfind : chain.find? (mapsAll cluster) with
  | some f => rfl
  | none =>
    by_cases hbest : 0 < bestCount cluster chain
    · rw [if_pos hbest]
      obtain ⟨f, hf, hc⟩ := bestCount_attained hbest
      have : (chain.find? (fun f => countMapped f cluster = bestCount cluster chain)).isSome :=
        List.find?_isSome.mpr ⟨f, hf, by simp [hc]⟩
      rw [Option.isSome_map']
      exact this
    · rw [if_neg hbest, Option.isSome_map']
      rw [List.getLast?_isSome]
      exact hch

/-- C7: `font_for_cell` picks from the bold/italic priority chain the
first font mapping every character of the cell symbol, else the earliest
font mapping the greatest number of characters, else the last font tried,
and it cannot fail once the fallback list (the tail of every chain) is
non-empty.  `selectFontSpec` is that specification verbatim. -/
theorem c7_font_selection (fs : FontsModel) (cell : RCell)
    (hsym : cell.symbol ≠ []) (hfb : fs.fallback ≠ []) :
    font_for_cell fs cell =
      selectFontSpec (cell.symbol.map RChar.code)
        (chainFor fs cell.modifier.bold cell.modifier.italic) ∧
    (font_for_cell fs cell).isSome := by
  have hcl : cell.symbol.map RChar.code ≠ [] := by
    simp [List.map_eq_nil_iff]
    exact hsym
  have hch : chainFor fs cell.modifier.bold cell.modifier.italic ≠ [] := by
    unfold chainFor
    split_ifs <;> simp [List.append_eq_nil, hfb]
  constructor
  · exact select_font_eq_spec _ _ hcl
  · rw [font_for_cell, select_font_eq_spec _ _ hcl]
    exact selectFontSpec_isSome _ _ hch

/-- Witness for C7 at a concrete font set and cell: the regular font only
maps part of the two-character cluster, the fallback font maps all of it
and is selected. -/
theorem c7_font_selection_witness :
    font_for_cell fonts0 cellC7 = some 11 ∧
      font_for_cell fonts0 cellC7 =
        selectFontSpec (cellC7.symbol.map RChar.code)
          (chainFor fonts0 cellC7.modifier.bold cellC7.modifier.italic) := by
  refine ⟨by rfl, ?_⟩
  exact (c7_font_selection fonts0 cellC7 (by simp [cellC7]) (by simp [fonts0])).1

/- ## Frame lemmas for the flush row phases -/

theorem coreFrame_update_remap (t : Surface) (r : List Nat) :
    coreFrame t { t with cellRemap := r } := by
  simp [coreFrame]

theorem coreFrame_update_dirtyCells (t : Surface) (d : List Bool) :
    coreFrame t { t with dirtyCells := d } := by
  simp [coreFrame]

theorem coreFrame_update_rendered (t : Surface) (r : List RenderedM) :
    coreFrame t { t with rendered := r } := by
  simp [coreFrame]

theorem coreFrame_update_cursorStyle (t : Surface) (c : CursorStyleM) :
    coreFrame t { t with cursorStyle := c } := by
  simp [coreFrame]

theorem initRemapRow_frame {off n : Nat} {s s' : Surface}
    (h : initRemapRow off n s = some s') :
    coreFrame s s' ∧ s'.dirtyCells = s.dirtyCells ∧ s'.rendered = s.rendered ∧
      s'.cursorStyle = s.cursorStyle := by
  unfold initRemapRow at h
  refine foldOptM_inv
    (P := fun t => coreFrame s t ∧ t.dirtyCells = s.dirtyCells ∧ t.rendered = s.rendered ∧
      t.cursorStyle = s.cursorStyle) ?_ _ _ _ h ⟨coreFrame_refl s, rfl, rfl, rfl⟩
  intro t a t' ht hp
  cases hx : setAt? t.cellRemap (off + a) a with
  | none => rw [hx] at ht; simp at ht
  | some r =>
    rw [hx] at ht
    injection ht with ht
    subst ht
    exact ⟨coreFrame_trans hp.1 (coreFrame_update_remap t r),
      by simp [hp.2.1], by simp [hp.2.2.1], by simp [hp.2.2.2]⟩

theorem markRowAllDirty_frame {off bw : Nat} {s s' : Surface}
    (h : markRowAllDirty off bw s = some s') :
    coreFrame s s' ∧ s'.cellRemap = s.cellRemap ∧ s'.rendered = s.rendered ∧
      s'.cursorStyle = s.cursorStyle := by
  unfold markRowAllDirty at h
  refine foldOptM_inv
    (P := fun t => coreFrame s t ∧ t.cellRemap = s.cellRemap ∧ t.rendered = s.rendered ∧
      t.cursorStyle = s.cursorStyle) ?_ _ _ _ h ⟨coreFrame_refl s, rfl, rfl, rfl⟩
  intro t a t' ht hp
  cases hx : setAt? t.dirtyCells (off + a) true with
  | none => rw [hx] at ht; simp at ht
  | some d =>
    rw [hx] at ht
    injection ht with ht
    subst ht
    exact ⟨coreFrame_trans hp.1 (coreFrame_update_dirtyCells t d),
      by simp [hp.2.1], by simp [hp.2.2.1], by simp [hp.2.2.2]⟩

theorem clearRenderedRow_frame {off bw : Nat} {s s' : Surface}
    (h : clearRenderedRow off bw s = some s') :
    coreFrame s s' ∧ s'.dirtyCells = s.dirtyCells ∧ s'.cellRemap = s.cellRemap ∧
      s'.cursorStyle = s.cursorStyle := by
  unfold clearRenderedRow at h
  refine foldOptM_inv
    (P := fun t => coreFrame s t ∧ t.dirtyCells = s.dirtyCells ∧ t.cellRemap = s.cellRemap ∧
      t.cursorStyle = s.cursorStyle) ?_ _ _ _ h ⟨coreFrame_refl s, rfl, rfl, rfl⟩
  intro t a t' ht hp
  cases hd : t.dirtyCells.get? (off + a) with
  | none => rw [hd] at ht; simp at ht
  | some d =>
    rw [hd] at ht
    cases d with
    | false =>
      simp only [Bool.false_eq_true, if_false] at ht
      injection ht with ht
      subst ht
      exact hp
    | true =>
      simp only [if_true] at ht
      cases hx : setAt? t.rendered (off + a) [] with
      | none => rw [hx] at ht; simp at ht
      | some r =>
        rw [hx] at ht
        injection ht with ht
        subst ht
        exact ⟨coreFrame_trans hp.1 (coreFrame_update_rendered t r),
          by simp [hp.2.1], by simp [hp.2.2.1], by simp [hp.2.2.2]⟩

theorem applyShapeOutRow_frame {off bw rowIdx : Nat} {shapeOut : Nat → Nat → RenderedM}
    {s s' : Surface} (h : applyShapeOutRow off bw rowIdx shapeOut s = some s') :
    coreFrame s s' ∧ s'.dirtyCells = s.dirtyCells ∧ s'.cellRemap = s.cellRemap ∧
      s'.cursorStyle = s.cursorStyle := by
  unfold applyShapeOutRow at h
  refine foldOptM_inv
    (P := fun t => coreFrame s t ∧ t.dirtyCells = s.dirtyCells ∧ t.cellRemap = s.cellRemap ∧
      t.cursorStyle = s.cursorStyle) ?_ _ _ _ h ⟨coreFrame_refl s, rfl, rfl, rfl⟩
  intro t a t' ht hp
  cases hd : t.dirtyCells.get? (off + a) with
  | none => rw [hd] at ht; simp at ht
  | some d =>
    rw [hd] at ht
    cases d with
    | false =>
      simp only [Bool.false_eq_true, if_false] at ht
      injection ht with ht
      subst ht
      exact hp
    | true =>
      simp only [if_true] at ht
      cases hx : setAt? t.rendered (off + a) (shapeOut rowIdx a) with
      | none => rw [hx] at ht; simp at ht
      | some r =>
        rw [hx] at ht
        injection ht with ht
        subst ht
        exact ⟨coreFrame_trans hp.1 (coreFrame_update_rendered t r),
          by simp [hp.2.1], by simp [hp.2.2.1], by simp [hp.2.2.2]⟩

theorem remapWrite_frame {rowIdx off : Nat} {rtl : Bool} {minCell maxCell cellIdx : Nat}
    {curCell' start : Int} {s s' : Surface}
    (h : remapWrite rowIdx off rtl minCell maxCell cellIdx curCell' start s = some s') :
    coreFrame s s' ∧ s'.dirtyCells = s.dirtyCells ∧ s'.rendered = s.rendered := by
  unfold remapWrite at h
  cases rtl with
  | true =>
    simp only [if_true] at h
    by_cases hmm : maxCell < minCell
    · rw [if_pos hmm] at h
      simp at h
    · rw [if_neg hmm] at h
      by_cases hcur : (castU16 cellIdx, castU16 rowIdx) = s.cursor
      · simp only [if_pos hcur] at h
        cases hx : setAt? { s with cursorStyle := s.cursorStyle.toRtl }.cellRemap
            (off + cellIdx) (castU16i (start + ((maxCell - minCell : Nat) : Int) -
              (curCell' - start))) with
        | none => rw [hx] at h; simp at h
        | some r =>
          rw [hx] at h
          injection h with h
          subst h
          exact ⟨by simp [coreFrame], rfl, rfl⟩
      · simp only [if_neg hcur] at h
        cases hx : setAt? s.cellRemap (off + cellIdx)
            (castU16i (start + ((maxCell - minCell : Nat) : Int) - (curCell' - start))) with
        | none => rw [hx] at h; simp at h
        | some r =>
          rw [hx] at h
          injection h with h
          subst h
          exact ⟨by simp [coreFrame], rfl, rfl⟩
  | false =>
    simp only [Bool.false_eq_true, if_false] at h
    by_cases hcur : (castU16 cellIdx, castU16 rowIdx) = s.cursor
    · simp only [if_pos hcur] at h
      cases hx : setAt? { s with cursorStyle := s.cursorStyle.toLtr }.cellRemap
          (off + cellIdx) (castU16i curCell') with
      | none => rw [hx] at h; simp at h
      | some r =>
        rw [hx] at h
        injection h with h
        subst h
        exact ⟨by simp [coreFrame], rfl, rfl⟩
    · simp only [if_neg hcur] at h
      cases hx : setAt? s.cellRemap (off + cellIdx) (castU16i curCell') with
      | none => rw [hx] at h; simp at h
      | some r =>
        rw [hx] at h
        injection h with h
        subst h
        exact ⟨by simp [coreFrame], rfl, rfl⟩

theorem walkChar_frame {rowIdx off : Nat} {rowCells : List RCell} {rtl : Bool}
    {minCell maxCell : Nat} {acc acc' : WalkSt × Option Int × Surface} {p : RChar × Nat}
    (h : walkChar rowIdx off rowCells rtl minCell maxCell acc p = some acc') :
    coreFrame acc.2.2 acc'.2.2 ∧ acc'.2.2.dirtyCells = acc.2.2.dirtyCells ∧
      acc'.2.2.rendered = acc.2.2.rendered := by
  obtain ⟨st, startCell, s⟩ := acc
  unfold walkChar at h
  by_cases hf : p.1.isFormat
  · simp only [hf, if_true] at h
    injection h with h
    subst h
    exact ⟨coreFrame_refl s, rfl, rfl⟩
  · simp only [Bool.not_eq_true] at hf
    simp only [hf, Bool.false_eq_true, if_false] at h
    split at h
    · exact absurd h (by simp)
    · rename_i fontId hfont
      split at h
      · exact absurd h (by simp)
      · rename_i curCell' hcc
        split at h
        · exact absurd h (by simp)
        · rename_i s2 hrw
          injection h with h
          subst h
          exact remapWrite_frame hrw

theorem walkRun_frame {rowIdx off : Nat} {rowCells : List RCell}
    {pairs : List (RChar × Nat)} {acc acc' : WalkSt × Surface} {run : BidiRun}
    (h : walkRun rowIdx off rowCells pairs acc run = some acc') :
    coreFrame acc.2 acc'.2 ∧ acc'.2.dirtyCells = acc.2.dirtyCells ∧
      acc'.2.rendered = acc.2.rendered := by
  unfold walkRun at h
  split at h
  · split at h
    · exact absurd h (by simp)
    · rename_i fst hfst
      split at h
      · exact absurd h (by simp)
      · rename_i lst hlst
        split at h
        · exact absurd h (by simp)
        · rename_i st' sc' s2' heq
          injection h with h
          subst h
          have := foldOptM_inv
            (P := fun (a : WalkSt × Option Int × Surface) =>
              coreFrame acc.2 a.2.2 ∧ a.2.2.dirtyCells = acc.2.dirtyCells ∧
                a.2.2.rendered = acc.2.rendered)
            (fun t a t' ht hp => by
              obtain ⟨h1, h2, h3⟩ := walkChar_frame ht
              exact ⟨coreFrame_trans hp.1 h1, h2.trans hp.2.1, h3.trans hp.2.2⟩)
            _ _ _ heq ⟨coreFrame_refl acc.2, rfl, rfl⟩
          exact this
  · exact absurd h (by simp)

theorem walkRuns_frame {rowIdx off : Nat} {rowCells : List RCell}
    {pairs : List (RChar × Nat)} {runs : List BidiRun} {acc acc' : WalkSt × Surface}
    (h : foldOptM (walkRun rowIdx off rowCells pairs) acc runs = some acc') :
    coreFrame acc.2 acc'.2 ∧ acc'.2.dirtyCells = acc.2.dirtyCells ∧
      acc'.2.rendered = acc.2.rendered := by
  refine foldOptM_inv
    (P := fun (a : WalkSt × Surface) =>
      coreFrame acc.2 a.2 ∧ a.2.dirtyCells = acc.2.dirtyCells ∧
        a.2.rendered = acc.2.rendered) ?_ _ _ _ h
    ⟨coreFrame_refl acc.2, rfl, rfl⟩
  intro t a t' ht hp
  obtain ⟨h1, h2, h3⟩ := walkRun_frame ht
  exact ⟨coreFrame_trans hp.1 h1, h2.trans hp.2.1, h3.trans hp.2.2⟩

/-- The row processing of flush_tui leaves every field except cell_remap,
dirty_cells, rendered and the cursor style unchanged. -/
theorem flushRow_frame {bw rowIdx : Nat} {oracle : List (RChar × Nat) → List BidiRun}
    {shapeOut : Nat → Nat → RenderedM} {rowCells : List RCell} {s s' : Surface}
    (h : flushRow bw rowIdx oracle shapeOut rowCells s = some s') :
    coreFrame s s' := by
  unfold flushRow at h
  split at h
  · exact absurd h (by simp)
  · rename_i s1 h1
    split at h
    · exact absurd h (by simp)
    · rename_i s2 h2
      split at h
      · exact absurd h (by simp)
      · rename_i s3 h3
        split at h
        · exact absurd h (by simp)
        · rename_i w4 s4 h4
          have f1 := (initRemapRow_frame h1).1
          have f2 : coreFrame s1 s2 := by
            by_cases hr : 1 < (oracle (rowPairs 0 rowCells)).length
            · rw [if_pos hr] at h2
              exact (markRowAllDirty_frame h2).1
            · rw [if_neg hr] at h2
              injection h2 with h2
              subst h2
              exact coreFrame_refl s1
          have f3 := (clearRenderedRow_frame h3).1
          have f4 := (walkRuns_frame h4).1
          have f5 := (applyShapeOutRow_frame h).1
          exact coreFrame_trans f1 (coreFrame_trans f2 (coreFrame_trans f3
            (coreFrame_trans f4 f5)))

/- ## flush_tui and append_dirty_rows level lemmas -/

/-- flush_tui's row loop leaves every core field unchanged relative to
the cursor-reset entry state. -/
theorem flushTui_coreFrame {bw bh : Nat} {oracle : List (RChar × Nat) → List BidiRun}
    {shapeOut : Nat → Nat → RenderedM} {s s' : Surface}
    (h : flushTui bw bh oracle shapeOut s = some s') :
    coreFrame { s with cursorShowing := true, cursorBlink := 0 } s' := by
  unfold flushTui at h
  simp only [] at h
  split at h
  · injection h with h
    subst h
    exact coreFrame_refl _
  · split at h
    · exact absurd h (by simp)
    · rename_i out heq
      obtain ⟨rIdx, s2⟩ := out
      injection h with h
      subst h
      refine foldOptM_inv
        (P := fun (a : Nat × Surface) =>
          coreFrame { s with cursorShowing := true, cursorBlink := 0 } a.2)
        ?_ _ _ _ heq (coreFrame_refl _)
      intro t a t' ht hp
      cases hd : t.2.dirtyRows.get? t.1 with
      | none => rw [hd] at ht; simp at ht
      | some d =>
        rw [hd] at ht
        cases d with
        | false =>
          simp only [Bool.false_eq_true, if_false] at ht
          injection ht with ht
          subst ht
          exact hp
        | true =>
          simp only [if_true] at ht
          cases hfr : flushRow bw t.1 oracle shapeOut a t.2 with
          | none => rw [hfr] at ht; simp at ht
          | some sr =>
            rw [hfr] at ht
            injection ht with ht
            subst ht
            exact coreFrame_trans hp (flushRow_frame hfr)

/-- When no row is dirty, flush_tui only resets the cursor blink state. -/
theorem flushTui_nodirty {bw bh : Nat} {oracle : List (RChar × Nat) → List BidiRun}
    {shapeOut : Nat → Nat → RenderedM} {s s' : Surface}
    (h : flushTui bw bh oracle shapeOut s = some s')
    (hnd : ∀ r, s.dirtyRows.get? r ≠ some true) :
    s' = { s with cursorShowing := true, cursorBlink := 0 } := by
  unfold flushTui at h
  simp only [] at h
  split at h
  · injection h with h
    exact h.symm
  · split at h
    · exact absurd h (by simp)
    · rename_i out heq
      obtain ⟨rIdx, s2⟩ := out
      injection h with h
      subst h
      have := foldOptM_inv
        (P := fun (a : Nat × Surface) =>
          a.2 = { s with cursorShowing := true, cursorBlink := 0 })
        (fun t a t' ht hp => by
          cases hd : t.2.dirtyRows.get? t.1 with
          | none => rw [hd] at ht; simp at ht
          | some d =>
            cases d with
            | false =>
              rw [hd] at ht
              simp only [Bool.false_eq_true, if_false] at ht
              injection ht with ht
              subst ht
              exact hp
            | true =>
              rw [hp] at hd
              exact absurd hd (hnd t.1))
        _ _ _ heq rfl
      exact this

/-- append_dirty_rows leaves dirty_rows with no set bit and dirty_img
empty; it clears dirty_cells exactly when its emission condition holds,
and otherwise changes nothing. -/
theorem appendDirtyRows_spec {needsUpdate : Bool} {s s2 : Surface}
    {em : List (Nat × RenderedM)} {imEm : List ImageInfoM}
    (h : appendDirtyRows needsUpdate s = some (s2, em, imEm)) :
    (∀ r, s2.dirtyRows.get? r ≠ some true) ∧ s2.dirtyImg = [] ∧
    ((needsUpdate = true ∨ (∃ r, s.dirtyRows.get? r = some true) ∨ s.dirtyImg ≠ []) →
      ∀ i, s2.dirtyCells.get? i ≠ some true) ∧
    (needsUpdate = false → (∀ r, s.dirtyRows.get? r ≠ some true) → s.dirtyImg = [] →
      s2 = s) := by
  have hany : (s.dirtyRows.any id = true) ↔ ∃ r, s.dirtyRows.get? r = some true := by
    rw [List.any_eq_true]
    constructor
    · rintro ⟨x, hx, hid⟩
      obtain ⟨⟨r, hr⟩, hval⟩ := List.mem_iff_get.mp hx
      refine ⟨r, ?_⟩
      rw [List.get?_eq_get hr, hval]
      simp only [id] at hid
      rw [hid]
    · rintro ⟨r, hr⟩
      exact ⟨true, List.get?_mem hr, rfl⟩
  unfold appendDirtyRows at h
  split at h
  · rename_i hcond
    split at h
    · exact absurd h (by simp)
    · rename_i emits hemits
      injection h with h
      have hs2 : s2 = { s with
          dirtyRows := s.dirtyRows.map (fun _ => false)
          dirtyCells := s.dirtyCells.map (fun _ => false)
          dirtyImg := [] } :=
        (congrArg Prod.fst h).symm
      subst hs2
      refine ⟨?_, rfl, ?_, ?_⟩
      · intro r hx
        rw [List.get?_map] at hx
        cases hy : s.dirtyRows.get? r with
        | none => rw [hy] at hx; simp at hx
        | some b => rw [hy] at hx; simp at hx
      · intro _ i hx
        rw [List.get?_map] at hx
        cases hy : s.dirtyCells.get? i with
        | none => rw [hy] at hx; simp at hx
        | some b => rw [hy] at hx; simp at hx
      · intro hnu hnd himg
        exfalso
        rw [hnu, himg] at hcond
        have hanyf : s.dirtyRows.any id = false := by
          cases hA : s.dirtyRows.any id
          · rfl
          · obtain ⟨r, hr⟩ := hany.mp hA
            exact absurd hr (hnd r)
        rw [hanyf] at hcond
        simp at hcond
  · rename_i hcond
    injection h with h
    have hs2 : s2 = s := (congrArg Prod.fst h).symm
    rw [hs2]
    simp only [Bool.or_eq_true, not_or] at hcond
    obtain ⟨⟨hnu, hna⟩, hni⟩ := hcond
    have himg : s.dirtyImg = [] := by
      have : s.dirtyImg.isEmpty = true := by
        cases hE : s.dirtyImg.isEmpty
        · rw [hE] at hni
          simp at hni
        · rfl
      exact List.isEmpty_iff.mp this
    refine ⟨?_, himg, ?_, fun _ _ _ => rfl⟩
    · intro r hr
      exact hna (hany.mpr ⟨r, hr⟩)
    · intro hc
      exfalso
      rcases hc with hc | hc | hc
      · exact hnu hc
      · exact hna (hany.mpr hc)
      · exact hc himg

/- ## Claim C1: dirty state after flush -/

/-- C1 counterexample: from the reachable state sC1 (dirty_cells bit set,
no dirty row, no dirty image, post-processor quiet — the state left by
`clear()`, which empties dirty_rows but not dirty_cells, once draw-free
frames pass), flush returns Ok yet the dirty_cells bit survives, refuting
the claim that after every Ok flush all dirty_cells bits are false. -/
theorem c1_counterexample :
    (flushModel 1 1 false orcSingleLtr shp0 sC1).map Surface.dirtyCells = some [true] ∧
    (flushModel 1 1 false orcSingleLtr shp0 sC1).map Surface.dirtyRows = some [false] := by
  exact ⟨rfl, rfl⟩

/-- C1 (amended): after every flush that returns Ok, dirty_rows has no
set bit and dirty_img is empty; dirty_cells is additionally fully cleared
whenever the post-processor needed an update, some dirty_rows bit was
set, or dirty_img was non-empty at flush entry — otherwise dirty_cells is
left unchanged. -/
theorem c1_flush_dirty_amended (bw bh : Nat) (needsUpdate : Bool)
    (oracle : List (RChar × Nat) → List BidiRun) (shapeOut : Nat → Nat → RenderedM)
    (s s' : Surface) (h : flushModel bw bh needsUpdate oracle shapeOut s = some s') :
    (∀ r, s'.dirtyRows.get? r ≠ some true) ∧ s'.dirtyImg = [] ∧
    ((needsUpdate = true ∨ (∃ r, s.dirtyRows.get? r = some true) ∨ s.dirtyImg ≠ []) →
      ∀ i, s'.dirtyCells.get? i ≠ some true) ∧
    (needsUpdate = false → (∀ r, s.dirtyRows.get? r ≠ some true) → s.dirtyImg = [] →
      s'.dirtyCells = s.dirtyCells) := by
  unfold flushModel at h
  split at h
  · exact absurd h (by simp)
  · rename_i s1 h1
    split at h
    · exact absurd h (by simp)
    · rename_i s2 em imEm h2
      injection h with h
      subst h
      have hfr := flushTui_coreFrame h1
      have hrows : s1.dirtyRows = s.dirtyRows := hfr.2.2.2.1
      have himg : s1.dirtyImg = s.dirtyImg := hfr.2.2.2.2.1
      have hspec := appendDirtyRows_spec h2
      refine ⟨hspec.1, hspec.2.1, ?_, ?_⟩
      · intro hc
        exact hspec.2.2.1 (by
          rcases hc with hc | hc | hc
          · exact Or.inl hc
          · exact Or.inr (Or.inl (by rw [hrows]; exact hc))
          · exact Or.inr (Or.inr (by rw [himg]; exact hc)))
      · intro hnu hnd hi
        have hs2 : s2 = s1 := hspec.2.2.2 hnu
          (by rw [hrows]; exact hnd) (by rw [himg]; exact hi)
        rw [hs2]
        have := flushTui_nodirty h1 hnd
        rw [this]

/-- Witness for the amended C1 at a concrete dirty 1x2 state: the dirty
row condition holds, so after flush the dirty bitmaps are clear. -/
theorem c1_flush_dirty_amended_witness :
    ((flushModel 2 1 false orcSingleLtr shp0 sRow2).getD sC1).dirtyRows.get? 0 ≠ some true ∧
    ((flushModel 2 1 false orcSingleLtr shp0 sRow2).getD sC1).dirtyImg = [] := by
  cases hx : flushModel 2 1 false orcSingleLtr shp0 sRow2 with
  | none => exact absurd hx (by decide)
  | some s' =>
    have hsp := c1_flush_dirty_amended 2 1 false orcSingleLtr shp0 sRow2 s' hx
    simp only [Option.getD_some]
    exact ⟨hsp.1 0, hsp.2.1⟩

/- ## Claim C9: cursor movement and the cursor-blink counter -/

/-- C9 counterexample: set_cursor_position moves the cursor of bC9 from
(0,0) to (1,0) but leaves the cursor-blink counter at 5 and the
blink-showing flag false, refuting the claim that a cursor move resets
them. -/
theorem c9_counterexample :
    (setCursorPosition bC9 1 0).map
      (fun b => (b.surf.cursor, b.surf.cursorBlink, b.surf.cursorShowing))
      = some ((1, 0), 5, false) ∧
    bC9.surf.cursor = (0, 0) := by
  exact ⟨rfl, rfl⟩

/-- C9 (amended): set_cursor_position only marks the old and new cursor
cells dirty and clamps the position; it leaves the dedicated cursor-blink
counter and the blink-showing state untouched.  The counter is reset to 0
and the cursor forced visible by every flush (flush_tui), so the frame
that renders the move shows the cursor. -/
theorem c9_cursor_blink_amended :
    (∀ b px py b', setCursorPosition b px py = some b' →
      b'.surf.cursorBlink = b.surf.cursorBlink ∧
      b'.surf.cursorShowing = b.surf.cursorShowing ∧
      b'.surf.cursor = (min px ((sizeOf b).1 - 1), min py ((sizeOf b).2 - 1))) ∧
    (∀ bw bh oracle shapeOut s s', flushTui bw bh oracle shapeOut s = some s' →
      s'.cursorBlink = 0 ∧ s'.cursorShowing = true) := by
  constructor
  · intro b px py b' h
    unfold setCursorPosition at h
    simp only [] at h
    split at h
    · exact absurd h (by simp)
    · split at h
      · exact absurd h (by simp)
      · rename_i dr hdr
        split at h
        · exact absurd h (by simp)
        · rename_i dc hdc
          split at h
          · exact absurd h (by simp)
          · rename_i dr2 hdr2
            split at h
            · exact absurd h (by simp)
            · rename_i dc2 hdc2
              injection h with h
              subst h
              exact ⟨rfl, rfl, rfl⟩
  · intro bw bh oracle shapeOut s s' h
    have hfr := flushTui_coreFrame h
    exact ⟨hfr.2.2.2.2.2.2.2.2.2.1, hfr.2.2.2.2.2.2.2.2.2.2.2.1⟩

/-- Witness for the amended C9 at the concrete backend bC9 and a
concrete flush of sC1. -/
theorem c9_cursor_blink_amended_witness :
    ((setCursorPosition bC9 1 0).getD bC9).surf.cursorBlink = bC9.surf.cursorBlink ∧
    ((flushTui 1 1 orcSingleLtr shp0 sC1).getD sC1).cursorBlink = 0 := by
  constructor
  · cases hx : setCursorPosition bC9 1 0 with
    | none => exact absurd hx (by decide)
    | some b' =>
      simp only [Option.getD_some]
      exact (c9_cursor_blink_amended.1 bC9 1 0 b' hx).1.trans (by rfl)
  · cases hx : flushTui 1 1 orcSingleLtr shp0 sC1 with
    | none => exact absurd hx (by decide)
    | some s' =>
      simp only [Option.getD_some]
      exact (c9_cursor_blink_amended.2 1 1 orcSingleLtr shp0 sC1 s' hx).1

/- ## Claim C6: clear_region(CurrentLine) -/

/-- C6: clear_region(CurrentLine) resets every cell of the cursor row to
the empty cell, sets that row's dirty-row bit and every dirty-cell bit
inside the row, and leaves the cell content, dirty-row bits and
dirty-cell bits of every other row (every index outside the row range)
unchanged. -/
theorem c6_clear_current_line (b b' : Backend)
    (h : clearRegionCurrentLine b = some b') :
    (∀ c, c < (sizeOf b).1 →
      b'.surf.cells.get? (b.surf.cursor.2 * (sizeOf b).1 + c) = some emptyCell ∧
      b'.surf.dirtyCells.get? (b.surf.cursor.2 * (sizeOf b).1 + c) = some true) ∧
    b'.surf.dirtyRows.get? b.surf.cursor.2 = some true ∧
    (∀ i, i < b.surf.cursor.2 * (sizeOf b).1 ∨
        b.surf.cursor.2 * (sizeOf b).1 + (sizeOf b).1 ≤ i →
      b'.surf.cells.get? i = b.surf.cells.get? i ∧
      b'.surf.dirtyCells.get? i = b.surf.dirtyCells.get? i) ∧
    (∀ r, r ≠ b.surf.cursor.2 → b'.surf.dirtyRows.get? r = b.surf.dirtyRows.get? r) := by
  unfold clearRegionCurrentLine at h
  simp only [] at h
  split at h
  · exact absurd h (by simp)
  · rename_i cs hcs
    split at h
    · exact absurd h (by simp)
    · rename_i cf hcf
      split at h
      · exact absurd h (by simp)
      · rename_i cr hcr
        split at h
        · exact absurd h (by simp)
        · rename_i dr hdr
          split at h
          · exact absurd h (by simp)
          · rename_i dc hdc
            split at h
            · exact absurd h (by simp)
            · rename_i fb hfb
              split at h
              · exact absurd h (by simp)
              · rename_i sb hsb
                injection h with h
                subst h
                refine ⟨?_, ?_, ?_, ?_⟩
                · intro c hc
                  constructor
                  · rw [fillRange?_get? hcs]
                    rw [if_pos (by omega)]
                  · rw [fillRange?_get? hdc]
                    rw [if_pos (by omega)]
                · rw [setAt?_get? hdr, if_pos rfl]
                · intro i hi
                  constructor
                  · rw [fillRange?_get? hcs]
                    rw [if_neg (by omega)]
                  · rw [fillRange?_get? hdc]
                    rw [if_neg (by omega)]
                · intro r hr
                  rw [setAt?_get? hdr, if_neg (by omega)]

/-- Witness for C6 on the concrete 2x2 backend bC6 with the cursor on
row 1: cell 2 (row 1, column 0) is emptied and marked dirty, row 0 keeps
its content and dirty bits. -/
theorem c6_clear_current_line_witness :
    ((clearRegionCurrentLine bC6).getD bC6).surf.cells.get? 2 = some emptyCell ∧
    ((clearRegionCurrentLine bC6).getD bC6).surf.dirtyCells.get? 2 = some true ∧
    ((clearRegionCurrentLine bC6).getD bC6).surf.dirtyRows.get? 1 = some true ∧
    ((clearRegionCurrentLine bC6).getD bC6).surf.cells.get? 0 =
      bC6.surf.cells.get? 0 ∧
    ((clearRegionCurrentLine bC6).getD bC6).surf.dirtyRows.get? 0 =
      bC6.surf.dirtyRows.get? 0 := by
  cases hx : clearRegionCurrentLine bC6 with
  | none => exact absurd hx (by decide)
  | some b' =>
    have hsp := c6_clear_current_line bC6 b' hx
    simp only [Option.getD_some]
    refine ⟨?_, ?_, ?_, ?_, ?_⟩
    · exact (hsp.1 0 (by decide)).1
    · exact (hsp.1 0 (by decide)).2
    · exact hsp.2.1
    · exact (hsp.2.2.1 0 (by decide)).1
    · exact hsp.2.2.2 0 (by decide)

/- ## Draw phase lemmas (used by claims C10 and C4) -/

theorem stepOk_refl (t : Surface) : stepOk t t := by
  exact ⟨rfl, rfl, rfl, rfl, rfl, rfl, rfl, fun _ h => h, fun _ h => h⟩

theorem stepOk_trans {t u v : Surface} (h1 : stepOk t u) (h2 : stepOk u v) :
    stepOk t v := by
  obtain ⟨a1, a2, a3, a4, a5, a6, a7, a8, a9⟩ := h1
  obtain ⟨b1, b2, b3, b4, b5, b6, b7, b8, b9⟩ := h2
  exact ⟨b1.trans a1, b2.trans a2, b3.trans a3, b4.trans a4, b5.trans a5, b6.trans a6,
    b7.trans a7, fun i hi => b8 i (a8 i hi), fun r hr => b9 r (a9 r hr)⟩

theorem stepOk_markCellDirty {bw x y : Nat} {t t' : Surface}
    (h : markCellDirty bw x y t = some t') : stepOk t t' := by
  unfold markCellDirty at h
  split at h
  · exact absurd h (by simp)
  · rename_i dc hdc
    injection h with h
    subst h
    refine ⟨rfl, rfl, rfl, rfl, rfl, rfl, setAt?_length hdc, ?_, fun _ h => h⟩
    intro i hi
    rw [setAt?_get? hdc]
    split
    · rfl
    · exact hi

theorem stepOk_markRowDirty {y : Nat} {t t' : Surface}
    (h : markRowDirty y t = some t') : stepOk t t' := by
  unfold markRowDirty at h
  split at h
  · exact absurd h (by simp)
  · rename_i dr hdr
    injection h with h
    subst h
    refine ⟨rfl, rfl, rfl, rfl, rfl, setAt?_length hdr, rfl, fun _ h => h, ?_⟩
    intro r hr
    rw [setAt?_get? hdr]
    split
    · rfl
    · exact hr

theorem stepOk_markRect {bw : Nat} {p1 p2 : Nat × Nat} {t t' : Surface}
    (h : markRect bw p1 p2 t = some t') : stepOk t t' := by
  unfold markRect at h
  refine foldOptM_inv (P := fun u => stepOk t u) ?_ _ _ _ h (stepOk_refl t)
  intro u y u' hu hp
  cases hf : foldOptM (fun s x => markCellDirty bw x y s) u (rangeClosed p1.1 p2.1) with
  | none => rw [hf] at hu; simp at hu
  | some u1 =>
    rw [hf] at hu
    have h1 : stepOk u u1 := by
      refine foldOptM_inv (P := fun v => stepOk u v) ?_ _ _ _ hf (stepOk_refl u)
      intro v x v' hv hq
      exact stepOk_trans hq (stepOk_markCellDirty hv)
    exact stepOk_trans hp (stepOk_trans h1 (stepOk_markRowDirty hu))

theorem stepOk_fillDirtyTrue {l : List Bool} {a n : Nat} {dc : List Bool}
    (h : fillRange? l a n true = some dc) :
    ∀ i, l.get? i = some true → dc.get? i = some true := by
  intro i hi
  rw [fillRange?_get? h]
  split
  · rfl
  · exact hi

theorem stepOk_drawContentStep {bw bh cw chh : Nat} {fonts : FontsModel}
    {t t' : Surface} {item : Nat × Nat × RCell}
    (h : drawContentStep bw bh cw chh fonts t item = some t') : stepOk t t' := by
  obtain ⟨x, y, cell⟩ := item
  unfold drawContentStep at h
  simp only [] at h
  split at h
  · exact absurd h (by simp)
  · rename_i fb hfb
    split at h
    · exact absurd h (by simp)
    · rename_i sb hsb
      split at h
      · exact absurd h (by simp)
      · rename_i glyphs hglyphs
        split at h
        · exact absurd h (by simp)
        · rename_i s2 hs2
          split at h
          · exact absurd h (by simp)
          · rename_i cs hcs
            split at h
            · exact absurd h (by simp)
            · rename_i fid hfid
              split at h
              · exact absurd h (by simp)
              · rename_i cf hcf
                split at h
                · exact absurd h (by simp)
                · rename_i dc hdc
                  split at h
                  · exact absurd h (by simp)
                  · rename_i s4 hs4
                    have hstep1 : stepOk t { t with fastBlinking := fb, slowBlinking := sb } := by
                      refine ⟨rfl, rfl, rfl, setAt?_length hfb, setAt?_length hsb, rfl, rfl,
                        fun _ h => h, fun _ h => h⟩
                    have hstep2 : stepOk { t with fastBlinking := fb, slowBlinking := sb } s2 := by
                      refine foldOptM_inv
                        (P := fun v => stepOk { t with fastBlinking := fb, slowBlinking := sb } v)
                        ?_ _ _ _ hs2 (stepOk_refl _)
                      intro v g v' hv hq
                      exact stepOk_trans hq (stepOk_markRect hv)
                    have hstep3 : stepOk s2
                        { s2 with cells := cs, cellFont := cf, dirtyCells := dc } := by
                      refine ⟨setAt?_length hcs, setAt?_length hcf, rfl, rfl, rfl, rfl,
                        setAt?_length hdc, ?_, fun _ h => h⟩
                      intro i hi
                      rw [setAt?_get? hdc]
                      split
                      · rfl
                      · exact hi
                    have hstep4 : stepOk { s2 with cells := cs, cellFont := cf, dirtyCells := dc }
                        s4 := by
                      revert hs4
                      split
                      · intro hs4
                        split at hs4
                        · exact absurd hs4 (by simp)
                        · rename_i cs2 hcs2
                          split at hs4
                          · exact absurd hs4 (by simp)
                          · rename_i dc2 hdc2
                            injection hs4 with hs4
                            subst hs4
                            exact ⟨fillRange?_length hcs2, rfl, rfl, rfl, rfl, rfl,
                              fillRange?_length hdc2, stepOk_fillDirtyTrue hdc2, fun _ h => h⟩
                      · intro hs4
                        injection hs4 with hs4
                        subst hs4
                        exact stepOk_refl _
                    exact stepOk_trans hstep1 (stepOk_trans hstep2 (stepOk_trans hstep3
                      (stepOk_trans hstep4 (stepOk_markRowDirty h))))

theorem stepOk_drawImageStep {bw bh cw chh : Nat}
    {st st' : Surface × List ImageInfoM} {ic : ImageInfoM}
    (h : drawImageStep bw bh cw chh st ic = some st') : stepOk st.1 st'.1 := by
  obtain ⟨s, acc⟩ := st
  unfold drawImageStep at h
  simp only [] at h
  split at h
  · rename_i pos hpos
    split at h
    · exact absurd h (by simp)
    · rename_i test htest
      split at h
      · exact absurd h (by simp)
      · rename_i s2 hs2
        injection h with h
        subst h
        have himg : stepOk s s2 := by
          revert hs2
          split
          · intro hs2
            injection hs2 with hs2
            subst hs2
            exact ⟨rfl, rfl, rfl, rfl, rfl, rfl, rfl, fun _ h => h, fun _ h => h⟩
          · intro hs2
            refine foldOptM_inv (P := fun v => stepOk s v) ?_ _ _ _ hs2 (stepOk_refl s)
            intro v y v' hv hq
            revert hv
            split
            · intro hv
              exact absurd hv (by simp)
            · rename_i d hd
              split
              · intro hv
                injection hv with hv
                subst hv
                exact stepOk_trans hq ⟨rfl, rfl, rfl, rfl, rfl, rfl, rfl,
                  fun _ h => h, fun _ h => h⟩
              · intro hv
                injection hv with hv
                subst hv
                exact hq
        exact stepOk_trans himg ⟨rfl, rfl, rfl, rfl, rfl, rfl, rfl,
          fun _ h => h, fun _ h => h⟩
  · injection h with h
    subst h
    exact ⟨rfl, rfl, rfl, rfl, rfl, rfl, rfl, fun _ h => h, fun _ h => h⟩

/-- After a successful draw, every per-cell array has exactly rows times
columns entries, dirty_rows has one entry per row, and every dirty bit of
the re-sized bitmaps (in particular every newly added all-true entry)
is still set. -/
theorem drawTui_post {bw bh cw chh : Nat} {fonts : FontsModel}
    {content : List (Nat × Nat × RCell)} {imgs : List ImageInfoM} {s s' : Surface}
    (h : drawTui bw bh cw chh fonts content imgs s = some s') :
    s'.cells.length = bh * bw ∧ s'.cellFont.length = bh * bw ∧
    s'.cellRemap.length = bh * bw ∧ s'.fastBlinking.length = bh * bw ∧
    s'.slowBlinking.length = bh * bw ∧ s'.dirtyCells.length = bh * bw ∧
    s'.dirtyRows.length = bh ∧
    (∀ i, (resizeList s.dirtyCells (bh * bw) true).get? i = some true →
      s'.dirtyCells.get? i = some true) ∧
    (∀ r, (resizeList s.dirtyRows bh true).get? r = some true →
      s'.dirtyRows.get? r = some true) := by
  unfold drawTui at h
  simp only [] at h
  split at h
  · exact absurd h (by simp)
  · rename_i s1 h1
    split at h
    · exact absurd h (by simp)
    · rename_i s2 imgsOut h2
      split at h
      · exact absurd h (by simp)
      · rename_i s3 h3
        injection h with h
        subst h
        have hso1 : stepOk { s with
            cells := resizeList s.cells (bh * bw) emptyCell
            cellFont := resizeList s.cellFont (bh * bw) 0
            cellRemap := resizeList s.cellRemap (bh * bw) 0
            fastBlinking := resizeList s.fastBlinking (bh * bw) false
            slowBlinking := resizeList s.slowBlinking (bh * bw) false
            dirtyRows := resizeList s.dirtyRows bh true
            dirtyCells := resizeList s.dirtyCells (bh * bw) true
            rendered := resizeList s.rendered (bh * bw) [] } s1 := by
          refine foldOptM_inv (P := fun v => stepOk _ v) ?_ _ _ _ h1 (stepOk_refl _)
          intro v item v' hv hq
          exact stepOk_trans hq (stepOk_drawContentStep hv)
        have hso2 : stepOk s1 s2 := by
          have := foldOptM_inv
            (P := fun (a : Surface × List ImageInfoM) => stepOk s1 a.1)
            (fun u a u' hu hp => stepOk_trans hp (stepOk_drawImageStep hu))
            _ _ _ h2 (stepOk_refl s1)
          exact this
        have hso3 : stepOk s2 s3 := by
          refine foldOptM_inv (P := fun v => stepOk s2 v) ?_ _ _ _ h3 (stepOk_refl s2)
          intro v ii v' hv hq
          exact stepOk_trans hq (stepOk_markRect hv)
        have hso : stepOk { s with
            cells := resizeList s.cells (bh * bw) emptyCell
            cellFont := resizeList s.cellFont (bh * bw) 0
            cellRemap := resizeList s.cellRemap (bh * bw) 0
            fastBlinking := resizeList s.fastBlinking (bh * bw) false
            slowBlinking := resizeList s.slowBlinking (bh * bw) false
            dirtyRows := resizeList s.dirtyRows bh true
            dirtyCells := resizeList s.dirtyCells (bh * bw) true
            rendered := resizeList s.rendered (bh * bw) [] }
            { s3 with images := imgsOut } := by
          refine stepOk_trans hso1 (stepOk_trans hso2 (stepOk_trans hso3 ?_))
          exact ⟨rfl, rfl, rfl, rfl, rfl, rfl, rfl, fun _ h => h, fun _ h => h⟩
        obtain ⟨e1, e2, e3, e4, e5, e6, e7, e8, e9⟩ := hso
        refine ⟨?_, ?_, ?_, ?_, ?_, ?_, ?_, ?_, ?_⟩
        · rw [e1]; exact length_resizeList _ _ _
        · rw [e2]; exact length_resizeList _ _ _
        · rw [e3]; exact length_resizeList _ _ _
        · rw [e4]; exact length_resizeList _ _ _
        · rw [e5]; exact length_resizeList _ _ _
        · rw [e7]; exact length_resizeList _ _ _
        · rw [e6]; exact length_resizeList _ _ _
        · exact e8
        · exact e9

/- ## Claim C10: array sizes after draw -/

/-- C10: after every successful draw, the per-cell arrays cells,
cell_font, cell_remap, fast_blinking, slow_blinking and dirty_cells all
have length rows x cols and dirty_rows has length rows, regardless of how
short the arrays were before (a prior clear or clear_region may have
truncated or emptied them); the entries appended by this re-sizing start
with their dirty bits set. -/
theorem c10_draw_lengths (bw bh cw chh : Nat) (fonts : FontsModel)
    (content : List (Nat × Nat × RCell)) (imgs : List ImageInfoM) (s s' : Surface)
    (h : drawTui bw bh cw chh fonts content imgs s = some s') :
    s'.cells.length = bh * bw ∧ s'.cellFont.length = bh * bw ∧
    s'.cellRemap.length = bh * bw ∧ s'.fastBlinking.length = bh * bw ∧
    s'.slowBlinking.length = bh * bw ∧ s'.dirtyCells.length = bh * bw ∧
    s'.dirtyRows.length = bh ∧
    (∀ i, s.dirtyCells.length ≤ i → i < bh * bw → s'.dirtyCells.get? i = some true) ∧
    (∀ r, s.dirtyRows.length ≤ r → r < bh → s'.dirtyRows.get? r = some true) := by
  obtain ⟨l1, l2, l3, l4, l5, l6, l7, m8, m9⟩ := drawTui_post h
  refine ⟨l1, l2, l3, l4, l5, l6, l7, ?_, ?_⟩
  · intro i hlo hhi
    exact m8 i (resizeList_get?_new _ _ _ _ hlo hhi)
  · intro r hlo hhi
    exact m9 r (resizeList_get?_new _ _ _ _ hlo hhi)

/-- Witness for C10 on a concrete 2x2 draw over the truncated state sC1
(arrays of length 1): all arrays are re-extended and the new entries are
dirty. -/
theorem c10_draw_lengths_witness :
    ((drawTui 2 2 1 1 fonts0 [(0, 0, cellOf chA)] [] sC1).getD sC1).cells.length = 4 ∧
    ((drawTui 2 2 1 1 fonts0 [(0, 0, cellOf chA)] [] sC1).getD sC1).dirtyCells.get? 3
      = some true ∧
    ((drawTui 2 2 1 1 fonts0 [(0, 0, cellOf chA)] [] sC1).getD sC1).dirtyRows.get? 1
      = some true := by
  cases hx : drawTui 2 2 1 1 fonts0 [(0, 0, cellOf chA)] [] sC1 with
  | none => exact absurd hx (by decide)
  | some s' =>
    have hsp := c10_draw_lengths 2 2 1 1 fonts0 [(0, 0, cellOf chA)] [] sC1 s' hx
    simp only [Option.getD_some]
    refine ⟨hsp.1, ?_, ?_⟩
    · exact hsp.2.2.2.2.2.2.2.1 3 (by decide) (by decide)
    · exact hsp.2.2.2.2.2.2.2.2 1 (by decide) (by decide)

/- ## Claim C4: resize -/

/-- C4 counterexample: resizing the 1x1 backend to 2x2 pixels passes the
clamp/no-op guard and the reported grid becomes 2x2, yet no dirty_rows bit
is set afterwards -- rebuild_surface clears the bitmaps to empty instead
of setting them, so the claimed full-surface invalidation (every bit set)
does not hold at this point. -/
theorem c4_counterexample :
    (¬ ((min 2 bC4.maxTexDim = bC4.configWidth ∧ min 2 bC4.maxTexDim = bC4.configHeight) ∨
        min 2 bC4.maxTexDim = 0 ∨ min 2 bC4.maxTexDim = 0)) ∧
    sizeOf (resizeB bC4 2 2) = (2, 2) ∧
    ¬ (∀ r, r < (sizeOf (resizeB bC4 2 2)).2 →
        (resizeB bC4 2 2).surf.dirtyRows.get? r = some true) := by
  decide

/-- C4 (amended): a resize that passes the clamp/no-op guard stores the
clamped configuration, so size() reports the floor-divided grid; the
dirty bitmaps are emptied (not set), and full invalidation is only
established by the next successful draw, after which every dirty_cells
and dirty_rows bit of the new grid is set. -/
theorem c4_resize_amended (b : Backend) (w h : Nat)
    (hne : ¬ ((min w b.maxTexDim = b.configWidth ∧ min h b.maxTexDim = b.configHeight) ∨
      min w b.maxTexDim = 0 ∨ min h b.maxTexDim = 0)) :
    sizeOf (resizeB b w h) =
      (min w b.maxTexDim / b.cellWidth, min h b.maxTexDim / b.cellHeight) ∧
    (resizeB b w h).surf.dirtyRows = [] ∧
    (resizeB b w h).surf.dirtyCells = [] ∧
    ∀ bw bh cw chh fonts content imgs s',
      drawTui bw bh cw chh fonts content imgs (resizeB b w h).surf = some s' →
      (∀ i, i < bh * bw → s'.dirtyCells.get? i = some true) ∧
      (∀ r, r < bh → s'.dirtyRows.get? r = some true) := by
  have hr : resizeB b w h = { b with
      configWidth := min w b.maxTexDim
      configHeight := min h b.maxTexDim
      surf := rebuildSurface b.surf } := by
    unfold resizeB
    simp only []
    rw [if_neg hne]
  refine ⟨by rw [hr]; rfl, by rw [hr]; rfl, by rw [hr]; rfl, ?_⟩
  intro bw bh cw chh fonts content imgs s' hd
  rw [hr] at hd
  obtain ⟨_, _, _, _, _, _, _, m8, m9⟩ := drawTui_post hd
  constructor
  · intro i hi
    exact m8 i (resizeList_get?_new _ _ _ _ (Nat.zero_le _) hi)
  · intro r hrr
    exact m9 r (resizeList_get?_new _ _ _ _ (Nat.zero_le _) hrr)

/-- Witness for C4 (amended) at the concrete backend bC4 resized to 2x2
pixels and then drawn at the 2x2 grid. -/
theorem c4_resize_amended_witness :
    sizeOf (resizeB bC4 2 2) = (2, 2) ∧
    (resizeB bC4 2 2).surf.dirtyCells = [] ∧
    ((drawTui 2 2 1 1 fonts0 [] [] (resizeB bC4 2 2).surf).getD sC1).dirtyCells.get? 3
      = some true := by
  have h := c4_resize_amended bC4 2 2 (by decide)
  refine ⟨by rw [h.1]; decide, h.2.2.1, ?_⟩
  cases hx : drawTui 2 2 1 1 fonts0 [] [] (resizeB bC4 2 2).surf with
  | none => exact absurd hx (by decide)
  | some s' =>
    simp only [Option.getD_some]
    exact (h.2.2.2 2 2 1 1 fonts0 [] [] s' hx).1 3 (by decide)

/- ## Claim C3: blink -/

theorem blinkImageStep_dirty {bw bh cw chh : Nat} {ci : List Nat}
    {u u' : Surface × List ImageInfoM} {ii : ImageInfoM}
    (h : blinkImageStep bw bh cw chh ci u ii = some u') :
    u'.1.dirtyCells = u.1.dirtyCells ∧
    u'.1.dirtyRows.length = u.1.dirtyRows.length ∧
    (∀ r, u.1.dirtyRows.get? r = some true → u'.1.dirtyRows.get? r = some true) := by
  unfold blinkImageStep at h
  refine foldOptM_inv (P := fun a => a.1.dirtyCells = u.1.dirtyCells ∧
      a.1.dirtyRows.length = u.1.dirtyRows.length ∧
      (∀ r, u.1.dirtyRows.get? r = some true → a.1.dirtyRows.get? r = some true))
    ?_ _ _ _ h ⟨rfl, rfl, fun _ h => h⟩
  intro v y v' hv hp
  split at hv
  · exact absurd hv (by simp)
  · rename_i dr hdr
    injection hv with hv
    subst hv
    obtain ⟨p1, p2, p3⟩ := hp
    refine ⟨p1, (setAt?_length hdr).trans p2, ?_⟩
    intro r hr
    rw [setAt?_get? hdr]
    split
    · rfl
    · exact p3 r hr

/-- C3 counterexample: with an overlay image present (state sC3, a 1x1
grid with one image), a blink call sets the dirty_rows bit of the row the
image covers, so blink does NOT leave dirty_rows unchanged in states with
images. -/
theorem c3_counterexample :
    ((flushBlink 3 1 1 1 1 sC3).map (fun o => o.1.dirtyRows)) = some [true] ∧
    sC3.dirtyRows = [false] := by
  decide

/-- C3 (amended): a blink call never changes dirty_cells; it never clears
a dirty_rows bit and keeps the bitmap length, but it SETS the dirty_rows
bit of every row covered by a current or pending image (dirty_rows is
unchanged only when no images are present); the glyph quads it emits are
exactly for cells of the blink set (fast/slow blinking bits when text
blinking is requested plus the cursor cell when cursor blinking is
requested). -/
theorem c3_blink_amended (blinking bw bh cw chh : Nat) (s : Surface)
    (out : Surface × List (Nat × RenderedM) × List ImageInfoM)
    (h : flushBlink blinking bw bh cw chh s = some out) :
    out.1.dirtyCells = s.dirtyCells ∧
    out.1.dirtyRows.length = s.dirtyRows.length ∧
    (∀ r, s.dirtyRows.get? r = some true → out.1.dirtyRows.get? r = some true) ∧
    (s.images = [] → s.dirtyImg = [] → out.1.dirtyRows = s.dirtyRows) ∧
    (∀ p ∈ out.2.1, p.1 ∈ blinkCells blinking bw (blinkCounters s)) := by
  unfold flushBlink at h
  simp only [] at h
  split at h
  · exact absurd h (by simp)
  · rename_i s2 imgEmit hfold
    injection h with h
    subst h
    have hinv : s2.dirtyCells = (blinkCounters s).dirtyCells ∧
        s2.dirtyRows.length = (blinkCounters s).dirtyRows.length ∧
        (∀ r, (blinkCounters s).dirtyRows.get? r = some true →
          s2.dirtyRows.get? r = some true) := by
      have := foldOptM_inv
        (P := fun (a : Surface × List ImageInfoM) =>
          a.1.dirtyCells = (blinkCounters s).dirtyCells ∧
          a.1.dirtyRows.length = (blinkCounters s).dirtyRows.length ∧
          (∀ r, (blinkCounters s).dirtyRows.get? r = some true →
            a.1.dirtyRows.get? r = some true))
        ?_ _ _ _ hfold ⟨rfl, rfl, fun _ h => h⟩
      · exact this
      · intro u ii u' hu hp
        obtain ⟨q1, q2, q3⟩ := blinkImageStep_dirty hu
        exact ⟨q1.trans hp.1, q2.trans hp.2.1, fun r hr => q3 r (hp.2.2 r hr)⟩
    refine ⟨hinv.1, hinv.2.1, hinv.2.2, ?_, ?_⟩
    · intro hi hd
      have e1 : (blinkCounters s).images = s.images := rfl
      have e2 : (blinkCounters s).dirtyImg = s.dirtyImg := rfl
      rw [e1, e2, hi, hd] at hfold
      simp only [List.append_nil, foldOptM] at hfold
      injection hfold with hfold
      have h2 : s2 = blinkCounters s := (congrArg Prod.fst hfold).symm
      rw [h2]
      rfl
    · intro p hp
      simp only [List.mem_filterMap] at hp
      obtain ⟨i, hi, hf⟩ := hp
      cases hg : (blinkCounters s).rendered.get? i with
      | none => rw [hg] at hf; simp at hf
      | some r =>
        rw [hg] at hf
        simp only [Option.map_some'] at hf
        injection hf with hf
        rw [← hf]
        exact hi

/-- Witness for C3 (amended) at the concrete image-carrying state sC3:
dirty_cells is untouched by the blink. -/
theorem c3_blink_amended_witness :
    ((flushBlink 3 1 1 1 1 sC3).map (fun o => o.1.dirtyCells)) = some sC3.dirtyCells := by
  cases hx : flushBlink 3 1 1 1 1 sC3 with
  | none => exact absurd hx (by decide)
  | some out =>
    simp only [Option.map_some']
    exact congrArg some (c3_blink_amended 3 1 1 1 1 sC3 out hx).1

/- ## Claim C5: multi-run rows are fully invalidated -/

theorem markDirtyFold_sets {off : Nat} :
    ∀ (l : List Nat) (s s' : Surface),
    foldOptM (fun s ci =>
        match setAt? s.dirtyCells (off + ci) true with
        | none => none
        | some d => some { s with dirtyCells := d }) s l = some s' →
    ∀ ci ∈ l, s'.dirtyCells.get? (off + ci) = some true
  | [], s, s', h, ci, hci => absurd hci (List.not_mem_nil ci)
  | a :: l, s, s', h, ci, hci => by
    simp only [foldOptM] at h
    split at h
    · exact absurd h (by simp)
    · rename_i sa hsa
      rcases List.mem_cons.mp hci with hcia | hcil
      · subst hcia
        have hset : sa.dirtyCells.get? (off + ci) = some true := by
          split at hsa
          · exact absurd hsa (by simp)
          · rename_i d hd
            injection hsa with hsa
            subst hsa
            show d.get? (off + ci) = some true
            rw [setAt?_get? hd]
            simp
        refine foldOptM_inv (P := fun t => t.dirtyCells.get? (off + ci) = some true)
          ?_ _ _ _ h hset
        intro t b t' ht hp
        split at ht
        · exact absurd ht (by simp)
        · rename_i d hd
          injection ht with ht
          subst ht
          show d.get? (off + ci) = some true
          rw [setAt?_get? hd]
          split
          · rfl
          · exact hp
      · exact markDirtyFold_sets l sa s' h ci hcil

/-- C5: when the bidi analysis of a processed row yields more than one
visual run, flush_tui's row processing sets the dirty_cells bit of every
cell of that row (the later phases -- rendered clearing, run walk and
shaping -- never clear a dirty bit), so the whole row is rebuilt. -/
theorem c5_multirun_all_dirty (bw rowIdx : Nat)
    (oracle : List (RChar × Nat) → List BidiRun) (shapeOut : Nat → Nat → RenderedM)
    (rowCells : List RCell) (s s' : Surface)
    (hmulti : 1 < (oracle (rowPairs 0 rowCells)).length)
    (h : flushRow bw rowIdx oracle shapeOut rowCells s = some s') :
    ∀ ci, ci < bw → s'.dirtyCells.get? (rowIdx * bw + ci) = some true := by
  unfold flushRow at h
  split at h
  · exact absurd h (by simp)
  · rename_i s1 h1
    rw [if_pos hmulti] at h
    split at h
    · exact absurd h (by simp)
    · rename_i s2 h2
      split at h
      · exact absurd h (by simp)
      · rename_i s3 h3
        split at h
        · exact absurd h (by simp)
        · rename_i w4 s4 h4
          intro ci hci
          have hset : s2.dirtyCells.get? (rowIdx * bw + ci) = some true := by
            unfold markRowAllDirty at h2
            exact markDirtyFold_sets _ _ _ h2 ci (List.mem_range.mpr hci)
          have e3 : s3.dirtyCells = s2.dirtyCells := (clearRenderedRow_frame h3).2.1
          have e4 : s4.dirtyCells = s3.dirtyCells := (walkRuns_frame h4).2.1
          have e5 : s'.dirtyCells = s4.dirtyCells := (applyShapeOutRow_frame h).2.1
          rw [e5, e4, e3]
          exact hset

/-- Witness for C5 on the concrete mixed-direction 1x2 row fixture: both
dirty bits of the row end up set. -/
theorem c5_multirun_all_dirty_witness :
    1 < (orcTwoRuns (rowPairs 0 rowRtl2)).length ∧
    ((flushRow 2 0 orcTwoRuns shp0 rowRtl2 sRow2).getD sRow2).dirtyCells.get? 1
      = some true := by
  cases hx : flushRow 2 0 orcTwoRuns shp0 rowRtl2 sRow2 with
  | none => exact absurd hx (by decide)
  | some s' =>
    refine ⟨by decide, ?_⟩
    simp only [Option.getD_some]
    exact c5_multirun_all_dirty 2 0 orcTwoRuns shp0 rowRtl2 sRow2 s' (by decide) hx 1
      (by decide)

/- ## Claim C2: the bidi cell remap -/

theorem simpleCell_spec {cell : RCell} (h : simpleCell cell = true) :
    cell.skip = false ∧ ∃ c, cell.symbol = [c] ∧ c.isFormat = false ∧ c.width = some 1 := by
  unfold simpleCell at h
  rw [Bool.and_eq_true] at h
  obtain ⟨hs, hm⟩ := h
  refine ⟨by simpa using hs, ?_⟩
  split at hm
  · rename_i c heq
    rw [Bool.and_eq_true] at hm
    exact ⟨c, heq, by simpa using hm.1, by simpa using hm.2⟩
  · exact absurd hm (by simp)

theorem symbolWidth_simple {cell : RCell} (h : simpleCell cell = true) :
    symbolWidth cell.symbol = 1 := by
  obtain ⟨-, c, hsym, hcf, hcw⟩ := simpleCell_spec h
  unfold symbolWidth
  rw [hsym]
  simp [hcf, hcw]

theorem rowPairs_simple :
    ∀ (rowCells : List RCell) (i : Nat),
      (∀ cell ∈ rowCells, simpleCell cell = true) →
      (rowPairs i rowCells).length = rowCells.length ∧
      ∀ j p, (rowPairs i rowCells).get? j = some p →
        p.2 = i + j ∧ p.1.isFormat = false
  | [], i, hw => ⟨rfl, by intro j p hp; simp [rowPairs] at hp⟩
  | c :: rest, i, hw => by
    obtain ⟨hskip, ch, hsym, hcf, hcw⟩ := simpleCell_spec (hw c (List.mem_cons_self c rest))
    have IH := rowPairs_simple rest (i + 1)
      (fun cell hcell => hw cell (List.mem_cons_of_mem c hcell))
    have hexp : rowPairs i (c :: rest) = (ch, i) :: rowPairs (i + 1) rest := by
      simp only [rowPairs, hskip, Bool.false_eq_true, if_false, hsym, List.map_cons,
        List.map_nil, List.singleton_append]
    rw [hexp]
    refine ⟨by simp [IH.1], ?_⟩
    intro j p hp
    cases j with
    | zero =>
      simp only [List.get?] at hp
      injection hp with hp
      subst hp
      exact ⟨by simp, hcf⟩
    | succ j =>
      simp only [List.get?] at hp
      obtain ⟨h1, h2⟩ := IH.2 j p hp
      exact ⟨by omega, h2⟩

theorem remapWrite_remap {rowIdx off : Nat} {rtl : Bool} {minCell maxCell cellIdx : Nat}
    {curCell' start : Int} {s s' : Surface}
    (h : remapWrite rowIdx off rtl minCell maxCell cellIdx curCell' start s = some s') :
    ∃ r, setAt? s.cellRemap (off + cellIdx)
        (castU16i (if rtl then start + ((maxCell - minCell : Nat) : Int) - (curCell' - start)
          else curCell')) = some r ∧ s'.cellRemap = r := by
  unfold remapWrite at h
  cases rtl with
  | true =>
    simp only [if_true] at h ⊢
    by_cases hmm : maxCell < minCell
    · rw [if_pos hmm] at h
      simp at h
    · rw [if_neg hmm] at h
      by_cases hcur : (castU16 cellIdx, castU16 rowIdx) = s.cursor
      · simp only [if_pos hcur] at h
        split at h
        · exact absurd h (by simp)
        · rename_i r hx
          injection h with h
          subst h
          exact ⟨r, hx, rfl⟩
      · simp only [if_neg hcur] at h
        split at h
        · exact absurd h (by simp)
        · rename_i r hx
          injection h with h
          subst h
          exact ⟨r, hx, rfl⟩
  | false =>
    simp only [Bool.false_eq_true, if_false] at h ⊢
    by_cases hcur : (castU16 cellIdx, castU16 rowIdx) = s.cursor
    · simp only [if_pos hcur] at h
      split at h
      · exact absurd h (by simp)
      · rename_i r hx
        injection h with h
        subst h
        exact ⟨r, hx, rfl⟩
    · simp only [if_neg hcur] at h
      split at h
      · exact absurd h (by simp)
      · rename_i r hx
        injection h with h
        subst h
        exact ⟨r, hx, rfl⟩

theorem advanceCell_step {rowCells : List RCell} (k : Nat)
    (h1 : k = 0 ∨ ∃ cell, rowCells.get? (k - 1) = some cell ∧ symbolWidth cell.symbol = 1) :
    advanceCell rowCells ((k : Int) - 1) k = some (k : Int) := by
  unfold advanceCell
  by_cases hk0 : k = 0
  · subst hk0
    norm_num
  · obtain ⟨cell, hcell, hwid⟩ := h1.resolve_left hk0
    rw [if_neg (by omega), if_pos (by omega), if_neg (by omega)]
    have ht : (((k : Int) - 1)).toNat = k - 1 := by omega
    rw [ht, hcell]
    show some ((k : Int) - 1 + (symbolWidth cell.symbol : Int)) = some (k : Int)
    rw [hwid]
    congr 1
    push_cast
    ring

theorem castU16i_small {m : Nat} (h : m < 65536) : castU16i ((m : Nat) : Int) = m := by
  unfold castU16i
  show (((m : Int) % 65536)).toNat = m
  omega

/-- The run walk over the characters of one homogeneous run of a row of
simple cells: when all processed pairs have consecutive cell indexes
`k, k+1, ...` and the walk state enters with the counter at `k - 1`, every
walked cell j receives the remap value j (LTR) or N-1-j (RTL, through the
u16 cast), and remap entries below the processed span are untouched. -/
theorem walkChars_spec {rowIdx off : Nat} {rowCells : List RCell} {rtl : Bool} {N : Nat}
    (hN : rowCells.length = N)
    (hw : ∀ cell ∈ rowCells, simpleCell cell = true) :
    ∀ (ps : List (RChar × Nat)) (k : Nat) (st : WalkSt) (sc : Option Int) (s : Surface)
      (out : WalkSt × Option Int × Surface),
      (∀ j p, ps.get? j = some p → p.2 = k + j ∧ p.1.isFormat = false) →
      k + ps.length = N →
      st.curCell = (k : Int) - 1 →
      (k = 0 → sc = none) →
      (k ≠ 0 → sc = some 0) →
      foldOptM (walkChar rowIdx off rowCells rtl 0 (N - 1)) (st, sc, s) ps = some out →
      (∀ j, k ≤ j → j < N →
        out.2.2.cellRemap.get? (off + j) =
          some (if rtl then castU16i (((N - 1 : Nat) : Int) - (j : Int))
            else castU16i ((j : Nat) : Int))) ∧
      (∀ i, i < off + k → out.2.2.cellRemap.get? i = s.cellRemap.get? i) := by
  intro ps
  induction ps with
  | nil =>
    intro k st sc s out hps hlen hst hsc0 hscn hfold
    simp only [foldOptM] at hfold
    injection hfold with hfold
    subst hfold
    simp only [List.length_nil, Nat.add_zero] at hlen
    exact ⟨fun j hj1 hj2 => absurd hj2 (by omega), fun i hi => rfl⟩
  | cons p tail ih =>
    intro k st sc s out hps hlen hst hsc0 hscn hfold
    obtain ⟨hp2, hpf⟩ := hps 0 p rfl
    simp only [Nat.add_zero] at hp2
    simp only [List.length_cons] at hlen
    have hkN : k < N := by omega
    simp only [foldOptM] at hfold
    split at hfold
    · exact absurd hfold (by simp)
    · rename_i a hstep
      unfold walkChar at hstep
      simp only [] at hstep
      simp only [hpf, Bool.false_eq_true, if_false] at hstep
      split at hstep
      · exact absurd hstep (by simp)
      · rename_i fontId hfont
        have hadv : advanceCell rowCells st.curCell p.2 = some (k : Int) := by
          rw [hst, hp2]
          apply advanceCell_step
          rcases Nat.eq_zero_or_pos k with hk0 | hkpos
          · exact Or.inl hk0
          · right
            have hlt : k - 1 < rowCells.length := by omega
            exact ⟨rowCells.get ⟨k - 1, hlt⟩, List.get?_eq_get hlt,
              symbolWidth_simple (hw _ (List.get_mem rowCells (k - 1) hlt))⟩
        rw [hadv] at hstep
        simp only [] at hstep
        split at hstep
        · exact absurd hstep (by simp)
        · rename_i s2 hrw
          injection hstep with hstep
          subst hstep
          have hstart : sc.getD (k : Int) = 0 := by
            by_cases hk0 : k = 0
            · rw [hsc0 hk0]
              subst hk0
              simp
            · rw [hscn hk0]
              rfl
          rw [hstart] at hrw hfold
          obtain ⟨r, hset, hrem⟩ := remapWrite_remap hrw
          have hs2get : ∀ i, s2.cellRemap.get? i =
              if off + p.2 = i then
                some (if rtl then castU16i (((N - 1 : Nat) : Int) - (k : Int))
                  else castU16i ((k : Nat) : Int))
              else s.cellRemap.get? i := by
            intro i
            rw [hrem, setAt?_get? hset]
            by_cases hi : off + p.2 = i
            · rw [if_pos hi, if_pos hi]
              cases rtl
              · simp
              · simp only [if_true]
                congr 2
                simp only [Nat.sub_zero]
                ring
            · rw [if_neg hi, if_neg hi]
          obtain ⟨ih1, ih2⟩ := ih (k + 1)
            { curFont := some fontId, curLevel := some rtl, curCell := (k : Int) }
            (some 0) s2 out
            (fun j p' hget => by
              obtain ⟨h1, h2⟩ := hps (j + 1) p' hget
              exact ⟨by omega, h2⟩)
            (by omega)
            (by show (k : Int) = ((k + 1 : Nat) : Int) - 1; push_cast; ring)
            (fun hz => absurd hz (Nat.succ_ne_zero k))
            (fun _ => rfl)
            hfold
          constructor
          · intro j hj1 hj2
            rcases Nat.eq_or_lt_of_le hj1 with hjk | hjk
            · subst hjk
              rw [ih2 (off + k) (by omega), hs2get, if_pos (by omega)]
            · exact ih1 j (by omega) hj2
          · intro i hi
            rw [ih2 i (by omega), hs2get, if_neg (by omega)]

/-- C2 counterexample: the 1x2 row of simple cells whose bidi analysis is
a SINGLE right-to-left run is a single-direction-run row, yet after the
row is flushed cell_remap is [1, 0], not the identity: the claimed
`cell_remap[i] == i` for every single-direction-run row fails (it holds
only for left-to-right runs). -/
theorem c2_counterexample :
    (orcSingleRtl (rowPairs 0 rowRtl2)).length = 1 ∧
    ((flushRow 2 0 orcSingleRtl shp0 rowRtl2 sRow2).map (fun t => t.cellRemap))
      = some [1, 0] := by
  decide

/-- C2 (amended): for a dirty row of simple (narrow, single-character,
non-Format, non-skip) cells whose bidi analysis is one run covering the
whole row, flush_tui's row processing leaves `cell_remap[i] == i` for
every cell of the row when the run is left-to-right, and writes
`cell_remap[i] == N - 1 - i` (N the row length) when the run is
right-to-left. -/
theorem c2_remap_amended (bw rowIdx : Nat) (rtl : Bool)
    (oracle : List (RChar × Nat) → List BidiRun) (shapeOut : Nat → Nat → RenderedM)
    (rowCells : List RCell) (s s' : Surface)
    (hw : ∀ cell ∈ rowCells, simpleCell cell = true)
    (hor : oracle (rowPairs 0 rowCells) =
      [{ rtl := rtl, start := 0, len := (rowPairs 0 rowCells).length }])
    (hsmall : rowCells.length ≤ 65536)
    (h : flushRow bw rowIdx oracle shapeOut rowCells s = some s') :
    ∀ j, j < rowCells.length →
      s'.cellRemap.get? (rowIdx * bw + j)
        = some (if rtl then rowCells.length - 1 - j else j) := by
  have hrp := rowPairs_simple rowCells 0 hw
  unfold flushRow at h
  rw [hor] at h
  split at h
  · exact absurd h (by simp)
  · rename_i s1 h1
    rw [if_neg (by simp)] at h
    simp only [] at h
    split at h
    · exact absurd h (by simp)
    · rename_i s3 h3
      split at h
      · exact absurd h (by simp)
      · rename_i w4 s4 h4
        simp only [foldOptM] at h4
        split at h4
        · exact absurd h4 (by simp)
        · rename_i a hwr
          injection h4 with h4
          subst h4
          unfold walkRun at hwr
          simp only [] at hwr
          rw [if_pos (by omega)] at hwr
          simp only [List.drop_zero, List.take_length] at hwr
          split at hwr
          · exact absurd hwr (by simp)
          · rename_i fst hfst
            split at hwr
            · exact absurd hwr (by simp)
            · rename_i lst hlst
              have hget0 : (rowPairs 0 rowCells).get? 0 = some fst := by
                rcases hq : rowPairs 0 rowCells with _ | ⟨q, qs⟩
                · rw [hq] at hfst
                  exact absurd hfst (by simp)
                · rw [hq] at hfst
                  exact hfst
              have hgetN : (rowPairs 0 rowCells).get?
                  ((rowPairs 0 rowCells).length - 1) = some lst := by
                rw [← List.getLast?_eq_get?]
                exact hlst
              have hfst2 : fst.2 = 0 := by
                have := (hrp.2 0 fst hget0).1
                omega
              have hlst2 : lst.2 = rowCells.length - 1 := by
                have := (hrp.2 _ lst hgetN).1
                omega
              rw [hfst2, hlst2] at hwr
              split at hwr
              · exact absurd hwr (by simp)
              · rename_i st2 sc2 s42 heq
                injection hwr with hwr
                injection hwr with hwr1 hwr2
                subst hwr2
                have hws := walkChars_spec rfl hw (rowPairs 0 rowCells) 0
                  { curFont := none, curLevel := none, curCell := -1 } none s3
                  (st2, sc2, s42) hrp.2 (by omega) (by decide)
                  (fun _ => rfl) (fun hna => absurd rfl hna) heq
                intro j hj
                have e5 : s'.cellRemap = s42.cellRemap := (applyShapeOutRow_frame h).2.2.1
                rw [e5, hws.1 j (Nat.zero_le j) (by omega)]
                congr 1
                cases rtl
                · simp only [Bool.false_eq_true, if_false]
                  exact castU16i_small (by omega)
                · simp only [if_true]
                  have e : ((rowCells.length - 1 : Nat) : Int) - (j : Int)
                      = ((rowCells.length - 1 - j : Nat) : Int) := by omega
                  rw [e]
                  exact castU16i_small (by omega)

/-- Witness for C2 (amended) on the 1x2 simple-cell row: an RTL run gives
the reversed remap entry 1 at cell 0 and an LTR run keeps the identity. -/
theorem c2_remap_amended_witness :
    ((flushRow 2 0 orcSingleRtl shp0 rowRtl2 sRow2).getD sRow2).cellRemap.get? 0
      = some 1 := by
  cases hx : flushRow 2 0 orcSingleRtl shp0 rowRtl2 sRow2 with
  | none => exact absurd hx (by decide)
  | some s' =>
    simp only [Option.getD_some]
    exact c2_remap_amended 2 0 true orcSingleRtl shp0 rowRtl2 sRow2 s'
      (by decide) (by decide) (by decide) hx 0 (by decide)

end RatWgpu
